import Mathlib

set_option linter.unusedSectionVars false

/-!
Verification of the picraft turtle core (`picraft/turtle.py`): the
`TurtleCache` write-through batching cache and the `Turtle` action/undo
state machine built on top of it.

The embedding is shallow: Python dicts become association lists with
unique keys, the remote block store becomes a total valuation `V → B`
together with ghost traces of the remote calls performed, and Python
exceptions become an `Option CErr` outcome.  The geometry library
(`picraft.vector`) and the `Block` value type are external collaborators
that are not part of the sources; they are modelled from the spec where
needed (each such definition says so in its doc comment).
-/

namespace Picraft

/-- Modelled from the spec: `picraft.block.Block` (not under the sources)
is "an opaque value type (an identifier plus auxiliary data) with value
equality"; we model it as an id/data pair of naturals. -/
structure Block where
  bid : Nat
  bdata : Nat
deriving DecidableEq, Repr

/-- Modelled from the spec: the default pen/fill block `Block('stone')`. -/
def stoneBlock : Block := ⟨1, 0⟩

/-- Modelled from the spec: the marker block `Block('wool', 15)`. -/
def woolBlock : Block := ⟨35, 15⟩

/-- Modelled from the spec: an arbitrary background block value. -/
def airBlock : Block := ⟨0, 0⟩

section AssocMap

variable {V B : Type} [DecidableEq V]

/-- Python dict lookup `d[k]` on an association list (first binding wins;
all maps the model builds keep their keys unique). -/
def alookup : List (V × B) → V → Option B
  | [], _ => none
  | p :: rest, v => if p.1 = v then some p.2 else alookup rest v

/-- Python dict assignment `d[k] = b`: replace the binding if the key is
present, else append a fresh binding. -/
def aset : List (V × B) → V → B → List (V × B)
  | [], v, b => [(v, b)]
  | p :: rest, v, b => if p.1 = v then (v, b) :: rest else p :: aset rest v b

/-- Python `d.update(pairs)`: assignments folded left to right, so a later
pair for the same key wins. -/
def aupdate (m : List (V × B)) (l : List (V × B)) : List (V × B) :=
  l.foldl (fun acc p => aset acc p.1 p.2) m

/-- The key list of an association map. -/
def akeys (m : List (V × B)) : List V := m.map (·.1)

/-- The value list of an association map. -/
def avals (m : List (V × B)) : List B := m.map (·.2)

/-- Apply an association list of overrides to a total valuation. -/
def ovw (f : V → B) (m : List (V × B)) : V → B :=
  fun v => (alookup m v).getD (f v)

/-- Lookup where the *last* binding wins (the value `aupdate` leaves for a
key). -/
def lwins : List (V × B) → V → Option B
  | [], _ => none
  | p :: rest, v => (lwins rest v).elim (if p.1 = v then some p.2 else none) some

theorem alookup_aset (m : List (V × B)) (v w : V) (b : B) :
    alookup (aset m v b) w = if v = w then some b else alookup m w := by
  induction m with
  | nil => simp [aset, alookup]
  | cons p rest ih =>
    by_cases h : p.1 = v
    · subst h
      by_cases hw : p.1 = w <;> simp [aset, alookup, hw]
    · by_cases hw : p.1 = w
      · subst hw
        have hvw : ¬ v = p.1 := fun hh => h hh.symm
        simp [aset, alookup, h, hvw]
      · simp [aset, alookup, h, hw, ih]

theorem akeys_aset (m : List (V × B)) (v : V) (b : B) :
    akeys (aset m v b) = if v ∈ akeys m then akeys m else akeys m ++ [v] := by
  induction m with
  | nil => simp [aset, akeys]
  | cons p rest ih =>
    by_cases h : p.1 = v
    · subst h
      simp [aset, akeys]
    · have h' : ¬ v = p.1 := fun hh => h hh.symm
      have hk : akeys (aset (p :: rest) v b) = p.1 :: akeys (aset rest v b) := by
        simp [aset, h, akeys]
      rw [hk, ih]
      by_cases hm : v ∈ akeys rest
      · simp only [akeys] at hm ⊢
        simp [hm, h']
      · simp only [akeys] at hm ⊢
        simp [hm, h']

theorem nodup_akeys_aset (m : List (V × B)) (v : V) (b : B)
    (h : (akeys m).Nodup) : (akeys (aset m v b)).Nodup := by
  rw [akeys_aset]
  by_cases hm : v ∈ akeys m
  · simpa [hm] using h
  · simp only [hm, if_false]
    exact List.Nodup.append h (List.nodup_singleton v)
      (fun a ha hav => hm ((List.mem_singleton.mp hav) ▸ ha))

theorem mem_aset (m : List (V × B)) (v : V) (b : B) (p : V × B)
    (hp : p ∈ aset m v b) : p = (v, b) ∨ p ∈ m := by
  induction m with
  | nil => simpa [aset] using hp
  | cons q rest ih =>
    by_cases h : q.1 = v
    · subst h
      rcases (by simpa [aset] using hp : p = (q.1, b) ∨ p ∈ rest) with h1 | h1
      · exact Or.inl (by simpa using h1)
      · exact Or.inr (List.mem_cons_of_mem _ h1)
    · rcases (by simpa [aset, h] using hp : p = q ∨ p ∈ aset rest v b) with h1 | h1
      · exact Or.inr (h1 ▸ List.mem_cons_self _ _)
      · rcases ih h1 with h2 | h2
        · exact Or.inl h2
        · exact Or.inr (List.mem_cons_of_mem _ h2)

theorem alookup_aupdate (m l : List (V × B)) (v : V) :
    alookup (aupdate m l) v = (lwins l v).elim (alookup m v) some := by
  induction l generalizing m with
  | nil => simp [aupdate, lwins]
  | cons p rest ih =>
    have : aupdate m (p :: rest) = aupdate (aset m p.1 p.2) rest := rfl
    rw [this, ih]
    cases hr : lwins rest v with
    | some b => simp [lwins, hr]
    | none =>
      by_cases hv : p.1 = v <;> simp [lwins, hr, hv, alookup_aset]

theorem alookup_eq_none (m : List (V × B)) (v : V) (h : v ∉ akeys m) :
    alookup m v = none := by
  induction m with
  | nil => rfl
  | cons p rest ih =>
    simp only [akeys, List.map_cons, List.mem_cons] at h
    push_neg at h
    have hp : ¬ p.1 = v := fun hh => h.1 hh.symm
    rw [alookup, if_neg hp]
    exact ih (by simpa [akeys] using h.2)

theorem lwins_eq_alookup (m : List (V × B)) (h : (akeys m).Nodup) (v : V) :
    lwins m v = alookup m v := by
  induction m with
  | nil => rfl
  | cons p rest ih =>
    have hcons := List.nodup_cons.mp (show (p.1 :: akeys rest).Nodup from h)
    by_cases hv : p.1 = v
    · subst hv
      rw [lwins, ih hcons.2, alookup_eq_none rest p.1 hcons.1]
      simp [alookup]
    · rw [lwins, ih hcons.2]
      rw [alookup, if_neg hv]
      cases alookup rest v <;> simp [hv]

theorem zip_akeys_avals (m : List (V × B)) : (akeys m).zip (avals m) = m := by
  induction m with
  | nil => rfl
  | cons p rest ih => simpa [akeys, avals] using ih

end AssocMap

/-- Error outcomes of cache operations: `KeyError` from the diff
computation, a transport failure from the remote bulk write, and the
`AttributeError` raised by exiting more batch scopes than were entered. -/
inductive CErr
  | keyError
  | remoteError
  | scopeError
deriving DecidableEq, Repr

/-- The state of a `TurtleCache` together with its world: `remote` is the
ground-truth remote block store (reads from `world.blocks` always return
its value), `cache` the shared map, and `batch` the modelled thread's
batch state (`None` or nesting level plus overlay).  `flushes`, `fetches`
and `sets` are ghost traces: the diffs sent to the remote store, the
coordinate sets bulk-fetched from it, and the number of `__setitem__`
calls performed. -/
structure Sys (V B : Type) where
  remote : V → B
  cache : List (V × B)
  batch : Option (Nat × List (V × B))
  flushes : List (List (V × B))
  fetches : List (List V)
  sets : Nat

variable {V B : Type}

/-- The overlay visible to the modelled thread (`self._batch.state`, or an
empty map when no batch is open). -/
def overlayOf (s : Sys V B) : List (V × B) :=
  match s.batch with
  | some (_, st) => st
  | none => []

/-- The coordinates `__getitem__` must fetch: requested ones absent from
both the shared cache and the overlay
(`set(positions) - set(self._cache.keys()) - set(batch.keys())`). -/
def unknownOf [DecidableEq V] (s : Sys V B) (ps : List V) : List V :=
  ps.dedup.filter (fun v => (alookup s.cache v).isNone && (alookup (overlayOf s) v).isNone)

/-- The readback comprehension of `__getitem__`
(`{v: batch.get(v, self._cache[v]) for v in positions}`), left to right:
`batch.get` evaluates its default argument eagerly, so `self._cache[v]`
is looked up first and raises `keyError` when the shared cache has no
binding for `v` — even when the overlay does — and only then does the
overlay's binding, when present, supersede the cached one. -/
def readback [DecidableEq V] (cache ov : List (V × B)) :
    List V → Except CErr (List (V × B))
  | [] => .ok []
  | v :: rest =>
    match alookup cache v with
    | none => .error .keyError
    | some c =>
      (readback cache ov rest).map (fun L => (v, (alookup ov v).getD c) :: L)

/-- `TurtleCache.__getitem__`: fetch the coordinates absent from both
layers into the shared cache, then answer each request through the
eager-default readback — which raises `keyError` on a request held by
the overlay but missing from the shared cache (such a coordinate is
excluded from the fetch set), after the fetch has already been merged. -/
def cacheGet [DecidableEq V] (s : Sys V B) (ps : List V) :
    Sys V B × Except CErr (List (V × B)) :=
  let ov := overlayOf s
  let unknown := unknownOf s ps
  let cache' := aupdate s.cache (unknown.map (fun v => (v, s.remote v)))
  ({ s with
      cache := cache'
      fetches := if unknown.isEmpty then s.fetches else s.fetches ++ [unknown] },
   readback cache' ov ps)

/-- The diff computed by a non-batched `__setitem__`
(`{v: b for v, b in zip(positions, blocks) if b != self._cache[v]}`),
accumulated left to right; `none` is the `KeyError` raised when a written
coordinate is absent from the shared cache. -/
def computeDiffAux [DecidableEq V] [DecidableEq B] (cache : List (V × B)) :
    List (V × B) → List (V × B) → Option (List (V × B))
  | acc, [] => some acc
  | acc, p :: rest =>
    match alookup cache p.1 with
    | none => none
    | some c => computeDiffAux cache (if p.2 = c then acc else aset acc p.1 p.2) rest

/-- The diff of a non-batched `__setitem__` against the shared cache. -/
def computeDiff [DecidableEq V] [DecidableEq B] (cache : List (V × B))
    (pairs : List (V × B)) : Option (List (V × B)) :=
  computeDiffAux cache [] pairs

/-- `TurtleCache.__setitem__`.  With an open batch the pairs are written
into the thread-local overlay and nothing else happens.  Otherwise the
diff against the shared cache is computed (raising `keyError` exactly as
the source's `self._cache[v]` does), sent to the remote store as one
batched transaction, and only then merged into the shared cache.  `ok`
models whether the remote bulk write succeeds; transport failures leave
the shared cache untouched.  Modelled from the spec: sending an empty
diff performs no remote call (the bulk-write collaborators are not under
the sources), so an empty diff cannot fail. -/
def cacheSet [DecidableEq V] [DecidableEq B] (ok : Bool) (s : Sys V B)
    (ps : List V) (bs : List B) : Sys V B × Option CErr :=
  let s := { s with sets := s.sets + 1 }
  match s.batch with
  | some (n, st) => ({ s with batch := some (n, aupdate st (ps.zip bs)) }, none)
  | none =>
    match computeDiff s.cache (ps.zip bs) with
    | none => (s, some .keyError)
    | some diff =>
      if diff.isEmpty then (s, none)
      else if ok then
        ({ s with
            remote := ovw s.remote diff
            cache := aupdate s.cache diff
            flushes := s.flushes ++ [diff] }, none)
      else (s, some .remoteError)

/-- `TurtleCache.__enter__`: open (or re-enter) the batch scope. -/
def cacheEnter (s : Sys V B) : Sys V B :=
  match s.batch with
  | some (n, st) => { s with batch := some (n + 1, st) }
  | none => { s with batch := some (1, []) }

/-- `TurtleCache.__exit__`; `failed` is `exc_type is not None`.  The
outermost successful exit flushes the whole overlay through
`__setitem__`; a failed outermost exit discards it; inner exits only
decrement the level.  Exiting with no open batch is the
`AttributeError` of `self._batch.level -= 1`. -/
def cacheExit [DecidableEq V] [DecidableEq B] (ok failed : Bool) (s : Sys V B) :
    Sys V B × Option CErr :=
  match s.batch with
  | none => (s, some .scopeError)
  | some (n, st) =>
    if n = 1 then
      let s' := { s with batch := none }
      if failed then (s', none)
      else cacheSet ok s' (akeys st) (avals st)
    else ({ s with batch := some (n - 1, st) }, none)

/-- Coherence of the shared cache with the remote store (every cached
binding matches ground truth). -/
def Coh [DecidableEq V] (s : Sys V B) : Prop :=
  ∀ v b, alookup s.cache v = some b → s.remote v = b

theorem alookup_mem [DecidableEq V] (m : List (V × B)) (v : V) (b : B)
    (h : alookup m v = some b) : (v, b) ∈ m := by
  induction m with
  | nil => simp [alookup] at h
  | cons p rest ih =>
    by_cases hp : p.1 = v
    · have hb : p.2 = b := by simpa [alookup, hp] using h
      have : p = (v, b) := by
        cases p; simp at hp hb; simp [hp, hb]
      exact this ▸ List.mem_cons_self _ _
    · exact List.mem_cons_of_mem _ (ih (by simpa [alookup, hp] using h))

theorem coh_of_mem [DecidableEq V] (s : Sys V B)
    (h : ∀ p ∈ s.cache, s.remote p.1 = p.2) : Coh s := by
  intro v b hv
  simpa using h (v, b) (alookup_mem _ _ _ hv)

section CacheLemmas

variable {V B : Type} [DecidableEq V] [DecidableEq B]

theorem mem_akeys_of_alookup {m : List (V × B)} {v : V} {b : B}
    (h : alookup m v = some b) : v ∈ akeys m :=
  List.mem_map.mpr ⟨(v, b), alookup_mem _ _ _ h, rfl⟩

theorem alookup_of_mem_nodup {m : List (V × B)} (hnd : (akeys m).Nodup)
    {p : V × B} (hp : p ∈ m) : alookup m p.1 = some p.2 := by
  induction m with
  | nil => cases hp
  | cons q rest ih =>
    have hcons := List.nodup_cons.mp (show (q.1 :: akeys rest).Nodup from hnd)
    rcases List.mem_cons.mp hp with rfl | hp'
    · simp [alookup]
    · have hne : ¬ q.1 = p.1 := fun hh =>
        hcons.1 (hh ▸ List.mem_map.mpr ⟨p, hp', rfl⟩)
      rw [alookup, if_neg hne]
      exact ih hcons.2 hp'

theorem alookup_map_self (l : List V) (f : V → B) (hnd : l.Nodup) (v : V) :
    alookup (l.map (fun w => (w, f w))) v = if v ∈ l then some (f v) else none := by
  induction l with
  | nil => simp [alookup]
  | cons a rest ih =>
    have hcons := List.nodup_cons.mp hnd
    by_cases ha : a = v
    · subst ha
      simp [alookup, hcons.1]
    · have hv : ¬ v = a := fun hh => ha hh.symm
      simp only [List.map_cons, alookup, if_neg ha, ih hcons.2, List.mem_cons]
      simp [hv]

theorem computeDiffAux_isSome_iff (cache : List (V × B)) (pairs : List (V × B)) :
    ∀ acc, (computeDiffAux cache acc pairs).isSome
      ↔ ∀ p ∈ pairs, (alookup cache p.1).isSome := by
  induction pairs with
  | nil => intro acc; simp [computeDiffAux]
  | cons p rest ih =>
    intro acc
    cases hc : alookup cache p.1 with
    | none => simp [computeDiffAux, hc]
    | some c => simp [computeDiffAux, hc, ih]

theorem computeDiffAux_all_diff (cache : List (V × B)) :
    ∀ pairs acc d, computeDiffAux cache acc pairs = some d →
      (∀ p ∈ acc, ¬ alookup cache p.1 = some p.2) →
      ∀ p ∈ d, ¬ alookup cache p.1 = some p.2 := by
  intro pairs
  induction pairs with
  | nil =>
    intro acc d h hacc
    cases h
    exact hacc
  | cons q rest ih =>
    intro acc d h hacc
    cases hc : alookup cache q.1 with
    | none => simp [computeDiffAux, hc] at h
    | some c =>
      simp only [computeDiffAux, hc] at h
      by_cases hqc : q.2 = c
      · rw [if_pos hqc] at h
        exact ih acc d h hacc
      · rw [if_neg hqc] at h
        refine ih _ d h ?_
        intro p hp
        rcases mem_aset _ _ _ _ hp with rfl | hpm
        · rw [hc]
          intro heq
          exact hqc (Option.some.inj heq).symm
        · exact hacc p hpm

theorem computeDiffAux_eq_of_all_eq (cache : List (V × B)) (pairs : List (V × B))
    (h : ∀ p ∈ pairs, alookup cache p.1 = some p.2) :
    ∀ acc, computeDiffAux cache acc pairs = some acc := by
  induction pairs with
  | nil => intro acc; rfl
  | cons q rest ih =>
    intro acc
    have hq := h q (List.mem_cons_self _ _)
    simp only [computeDiffAux, hq, if_pos rfl]
    exact ih (fun p hp => h p (List.mem_cons_of_mem _ hp)) acc

theorem computeDiffAux_nodup (cache : List (V × B)) :
    ∀ pairs acc d, computeDiffAux cache acc pairs = some d →
      (akeys acc).Nodup → (akeys d).Nodup := by
  intro pairs
  induction pairs with
  | nil =>
    intro acc d h hn
    cases h
    exact hn
  | cons q rest ih =>
    intro acc d h hn
    cases hc : alookup cache q.1 with
    | none => simp [computeDiffAux, hc] at h
    | some c =>
      simp only [computeDiffAux, hc] at h
      by_cases hqc : q.2 = c
      · rw [if_pos hqc] at h
        exact ih _ _ h hn
      · rw [if_neg hqc] at h
        exact ih _ _ h (nodup_akeys_aset _ _ _ hn)

theorem computeDiffAux_lookup (cache : List (V × B)) :
    ∀ pairs acc d, (akeys pairs).Nodup →
      (∀ p ∈ pairs, alookup acc p.1 = none) →
      computeDiffAux cache acc pairs = some d →
      ∀ v, alookup d v =
        match alookup pairs v with
        | some b => if alookup cache v = some b then alookup acc v else some b
        | none => alookup acc v := by
  intro pairs
  induction pairs with
  | nil =>
    intro acc d _ _ h v
    cases h
    rfl
  | cons q rest ih =>
    intro acc d hnd hdisj h v
    have hcons := List.nodup_cons.mp (show (q.1 :: akeys rest).Nodup from hnd)
    cases hc : alookup cache q.1 with
    | none => simp [computeDiffAux, hc] at h
    | some c =>
      simp only [computeDiffAux, hc] at h
      by_cases hqc : q.2 = c
      · rw [if_pos hqc] at h
        have := ih acc d hcons.2
          (fun p hp => hdisj p (List.mem_cons_of_mem _ hp)) h v
        by_cases hv : q.1 = v
        · subst hv
          have hrest : alookup rest q.1 = none :=
            alookup_eq_none rest q.1 hcons.1
          rw [this, hrest]
          have hcache : alookup cache q.1 = some q.2 := by rw [hc, hqc]
          simp [alookup, hcache]
        · rw [this]
          simp [alookup, hv]
      · rw [if_neg hqc] at h
        have hdisj' : ∀ p ∈ rest, alookup (aset acc q.1 q.2) p.1 = none := by
          intro p hp
          rw [alookup_aset]
          have hne : ¬ q.1 = p.1 := fun hh =>
            hcons.1 (hh ▸ List.mem_map.mpr ⟨p, hp, rfl⟩)
          rw [if_neg hne]
          exact hdisj p (List.mem_cons_of_mem _ hp)
        have := ih _ d hcons.2 hdisj' h v
        by_cases hv : q.1 = v
        · subst hv
          have hrest : alookup rest q.1 = none :=
            alookup_eq_none rest q.1 hcons.1
          rw [this, hrest]
          have hup : alookup (aset acc q.1 q.2) q.1 = some q.2 := by
            rw [alookup_aset, if_pos rfl]
          rw [hup]
          have hne : ¬ alookup cache q.1 = some q.2 := by
            rw [hc]
            intro heq
            exact hqc (Option.some.inj heq).symm
          simp [alookup, hne]
        · rw [this]
          have hup : alookup (aset acc q.1 q.2) v = alookup acc v := by
            rw [alookup_aset, if_neg hv]
          simp only [alookup, if_neg hv, hup]

/-- Effect of a successful non-batched `__setitem__` writing an
association map `m` with unique keys, all of whose coordinates are
cached: the map is applied to the remote store and to the shared cache,
at most one flush (of differing pairs only) is appended, and coherence
is preserved. -/
theorem cacheSet_flush (s : Sys V B) (m : List (V × B))
    (hb : s.batch = none) (hnd : (akeys m).Nodup)
    (hcoh : Coh s) (hkeys : ∀ p ∈ m, (alookup s.cache p.1).isSome) :
    (cacheSet true s (akeys m) (avals m)).2 = none
    ∧ (∀ v, (cacheSet true s (akeys m) (avals m)).1.remote v = ovw s.remote m v)
    ∧ (∀ v, alookup (cacheSet true s (akeys m) (avals m)).1.cache v
        = (alookup m v).elim (alookup s.cache v) some)
    ∧ ((cacheSet true s (akeys m) (avals m)).1.flushes = s.flushes
       ∨ ∃ d, (cacheSet true s (akeys m) (avals m)).1.flushes = s.flushes ++ [d]
           ∧ ∀ p ∈ d, alookup m p.1 = some p.2)
    ∧ (cacheSet true s (akeys m) (avals m)).1.batch = none
    ∧ Coh (cacheSet true s (akeys m) (avals m)).1
    ∧ (cacheSet true s (akeys m) (avals m)).1.fetches = s.fetches
    ∧ (cacheSet true s (akeys m) (avals m)).1.sets = s.sets + 1 := by
  have hzip : (akeys m).zip (avals m) = m := zip_akeys_avals m
  have hsome : (computeDiff s.cache m).isSome := by
    rw [computeDiff]
    exact (computeDiffAux_isSome_iff s.cache m []).mpr
      (fun p hp => hkeys p hp)
  obtain ⟨d, hd⟩ := Option.isSome_iff_exists.mp hsome
  have hdl := computeDiffAux_lookup s.cache m [] d hnd
    (fun p _ => rfl) hd
  have hdnodup : (akeys d).Nodup :=
    computeDiffAux_nodup s.cache m [] d hd List.nodup_nil
  have hremote : ∀ v, (ovw s.remote d) v = ovw s.remote m v := by
    intro v
    have := hdl v
    cases hm : alookup m v with
    | none =>
      rw [hm] at this
      simp [alookup] at this
      simp [ovw, this, hm]
    | some b =>
      rw [hm] at this
      simp [alookup] at this
      by_cases hcv : alookup s.cache v = some b
      · rw [if_pos hcv] at this
        have hr : s.remote v = b := hcoh v b hcv
        simp [ovw, this, hm, hr]
      · rw [if_neg hcv] at this
        simp [ovw, this, hm]
  have hcache : ∀ v, (alookup (aupdate s.cache d) v)
      = (alookup m v).elim (alookup s.cache v) some := by
    intro v
    rw [alookup_aupdate, lwins_eq_alookup d hdnodup]
    have := hdl v
    cases hm : alookup m v with
    | none =>
      rw [hm] at this
      simp [alookup] at this
      simp [this, hm]
    | some b =>
      rw [hm] at this
      simp [alookup] at this
      by_cases hcv : alookup s.cache v = some b
      · rw [if_pos hcv] at this
        simp [this, hm, hcv]
      · rw [if_neg hcv] at this
        simp [this, hm]
  have hdm : ∀ p ∈ d, alookup m p.1 = some p.2 := by
    intro p hp
    have hl : alookup d p.1 = some p.2 := alookup_of_mem_nodup hdnodup hp
    have := hdl p.1
    cases hm : alookup m p.1 with
    | none =>
      rw [hm] at this
      simp [alookup] at this
      rw [this] at hl
      exact Option.noConfusion hl
    | some b =>
      rw [hm] at this
      simp [alookup] at this
      by_cases hcv : alookup s.cache p.1 = some b
      · rw [if_pos hcv] at this
        rw [this] at hl
        exact Option.noConfusion hl
      · rw [if_neg hcv] at this
        rw [this] at hl
        exact hl
  by_cases hde : d.isEmpty
  · have hdnil : d = [] := List.isEmpty_iff.mp hde
    subst hdnil
    have hres : cacheSet true s (akeys m) (avals m)
        = ({ s with sets := s.sets + 1 }, none) := by
      simp only [cacheSet, hb, hzip, computeDiff] at *
      rw [hd]
      rfl
    rw [hres]
    refine ⟨rfl, ?_, ?_, Or.inl rfl, hb, ?_, rfl, rfl⟩
    · intro v
      have := hremote v
      simpa [ovw, alookup] using this
    · intro v
      have := hcache v
      simpa [aupdate] using this
    · intro v b hv
      exact hcoh v b hv
  · have hres : cacheSet true s (akeys m) (avals m)
        = ({ s with
              sets := s.sets + 1
              remote := ovw s.remote d
              cache := aupdate s.cache d
              flushes := s.flushes ++ [d] }, none) := by
      simp only [cacheSet, hb, hzip, computeDiff] at *
      rw [hd]
      simp [hde]
    rw [hres]
    refine ⟨rfl, hremote, hcache, Or.inr ⟨d, rfl, hdm⟩, hb, ?_, rfl, rfl⟩
    intro v b hv
    have hc := hcache v
    rw [show alookup (aupdate s.cache d) v
        = alookup ({ s with
            sets := s.sets + 1
            remote := ovw s.remote d
            cache := aupdate s.cache d
            flushes := s.flushes ++ [d] } : Sys V B).cache v from rfl] at hc
    rw [hc] at hv
    cases hm : alookup m v with
    | none =>
      rw [hm] at hv
      simp only [Option.elim] at hv
      have : s.remote v = b := hcoh v b hv
      have hr := hremote v
      simp only [ovw, hm, Option.getD] at hr
      exact hr.trans this
    | some b0 =>
      rw [hm] at hv
      simp only [Option.elim] at hv
      have hb0 : b0 = b := Option.some.inj hv
      have hr := hremote v
      simp only [ovw, hm, Option.getD] at hr
      exact hr.trans (by rw [hb0])

theorem akeys_map_self (l : List V) (f : V → B) :
    akeys (l.map (fun w => (w, f w))) = l := by
  induction l with
  | nil => rfl
  | cons a rest ih => simpa [akeys] using ih

theorem nodup_akeys_aupdate (m : List (V × B)) (l : List (V × B))
    (h : (akeys m).Nodup) : (akeys (aupdate m l)).Nodup := by
  induction l generalizing m with
  | nil => exact h
  | cons p rest ih => exact ih _ (nodup_akeys_aset _ _ _ h)

/-- When every requested coordinate has a shared-cache binding, the
readback comprehension raises nothing and answers each request from the
overlay when possible, else from the shared cache. -/
theorem readback_ok (cache ov : List (V × B)) (f : V → B) :
    ∀ ps : List V, (∀ v ∈ ps, alookup cache v = some (f v)) →
      readback cache ov ps
        = Except.ok (ps.map (fun v => (v, (alookup ov v).getD (f v)))) := by
  intro ps
  induction ps with
  | nil => intro _; rfl
  | cons a l ih =>
    intro h
    have hstep : readback cache ov (a :: l)
        = (match alookup cache a with
          | none => Except.error CErr.keyError
          | some c => (readback cache ov l).map
              (fun L => (a, (alookup ov a).getD c) :: L)) := rfl
    rw [hstep, h a (List.mem_cons_self a l),
      ih (fun v hv => h v (List.mem_cons_of_mem a hv))]
    rfl

/-- A request with no shared-cache binding makes the readback raise
`keyError` (the eagerly evaluated `self._cache[v]` default). -/
theorem readback_error (cache ov : List (V × B)) :
    ∀ ps : List V, (∃ v ∈ ps, alookup cache v = none) →
      readback cache ov ps = Except.error CErr.keyError := by
  intro ps
  induction ps with
  | nil =>
    rintro ⟨v, hv, -⟩
    cases hv
  | cons a l ih =>
    rintro ⟨v, hv, hnone⟩
    have hstep : readback cache ov (a :: l)
        = (match alookup cache a with
          | none => Except.error CErr.keyError
          | some c => (readback cache ov l).map
              (fun L => (a, (alookup ov a).getD c) :: L)) := rfl
    rcases List.mem_cons.mp hv with rfl | hv'
    · rw [hstep, hnone]
    · cases hca : alookup cache a with
      | none => rw [hstep, hca]
      | some c =>
        rw [hstep, hca, ih ⟨v, hv', hnone⟩]
        rfl

end CacheLemmas

section BatchRun

variable {V B : Type} [DecidableEq V] [DecidableEq B]

/-- Enter the batch scope `n` times (`with cache:` nested `n` deep). -/
def enterN : Nat → Sys V B → Sys V B
  | 0, s => s
  | n + 1, s => enterN n (cacheEnter s)

/-- Perform a sequence of `__setitem__` writes, each given as a
positions/blocks pair. -/
def writeAll : List (List V × List B) → Sys V B → Sys V B
  | [], s => s
  | w :: ws, s => writeAll ws (cacheSet true s w.1 w.2).1

/-- Exit the batch scope `n` times with no exception pending, keeping the
first error raised. -/
def exitN : Nat → Sys V B → Sys V B × Option CErr
  | 0, s => (s, none)
  | n + 1, s =>
    let r := cacheExit true false s
    let r' := exitN n r.1
    (r'.1, r.2.elim r'.2 some)

/-- The overlay left by a write sequence on top of `st`. -/
def ovAfter (st : List (V × B)) (ws : List (List V × List B)) : List (V × B) :=
  ws.foldl (fun acc w => aupdate acc (w.1.zip w.2)) st

/-- The net effect of a write sequence (last write wins per coordinate). -/
def netOf (ws : List (List V × List B)) : List (V × B) :=
  ovAfter [] ws

theorem enterN_some (n : Nat) (k : Nat) (st : List (V × B)) (s : Sys V B)
    (hb : s.batch = some (k, st)) :
    enterN n s = { s with batch := some (k + n, st) } := by
  induction n generalizing k s with
  | zero =>
    have heq : ({ s with batch := some (k + 0, st) } : Sys V B) = s := by
      rw [Nat.add_zero, ← hb]
    rw [show enterN 0 s = s from rfl, heq]
  | succ n ih =>
    have he : cacheEnter s = { s with batch := some (k + 1, st) } := by
      simp [cacheEnter, hb]
    rw [show enterN (n + 1) s = enterN n (cacheEnter s) from rfl, he,
      ih (k + 1) { s with batch := some (k + 1, st) } rfl]
    simp [Nat.add_assoc, Nat.add_comm 1 n]

theorem writeAll_batch (ws : List (List V × List B)) (k : Nat)
    (st : List (V × B)) (s : Sys V B) (hb : s.batch = some (k, st)) :
    (writeAll ws s).remote = s.remote
    ∧ (writeAll ws s).cache = s.cache
    ∧ (writeAll ws s).flushes = s.flushes
    ∧ (writeAll ws s).fetches = s.fetches
    ∧ (writeAll ws s).batch = some (k, ovAfter st ws) := by
  induction ws generalizing st s with
  | nil =>
    refine ⟨rfl, rfl, rfl, rfl, ?_⟩
    rw [show writeAll ([] : List (List V × List B)) s = s from rfl,
      show ovAfter st [] = st from rfl, hb]
  | cons w ws ih =>
    have hset : (cacheSet true s w.1 w.2).1
        = { s with sets := s.sets + 1, batch := some (k, aupdate st (w.1.zip w.2)) } := by
      simp [cacheSet, hb]
    rw [show writeAll (w :: ws) s = writeAll ws (cacheSet true s w.1 w.2).1 from rfl, hset]
    exact ih (aupdate st (w.1.zip w.2)) _ rfl

theorem exitN_inner (n : Nat) :
    ∀ (k : Nat) (st : List (V × B)) (s : Sys V B), s.batch = some (k, st) → n < k →
    (exitN n s).1.remote = s.remote ∧ (exitN n s).1.cache = s.cache
    ∧ (exitN n s).1.flushes = s.flushes ∧ (exitN n s).1.fetches = s.fetches
    ∧ (exitN n s).1.batch = some (k - n, st) ∧ (exitN n s).2 = none := by
  induction n with
  | zero =>
    intro k st s hb _
    exact ⟨rfl, rfl, rfl, rfl, by rw [show exitN 0 s = (s, none) from rfl]; simpa using hb, rfl⟩
  | succ n ih =>
    intro k st s hb hk
    have hk1 : ¬ k = 1 := by omega
    have hexit : cacheExit true false s = ({ s with batch := some (k - 1, st) }, none) := by
      simp [cacheExit, hb, hk1]
    have hrec := ih (k - 1) st { s with batch := some (k - 1, st) } rfl (by omega)
    have hstep : exitN (n + 1) s
        = ((exitN n ({ s with batch := some (k - 1, st)} : Sys V B)).1,
           (exitN n ({ s with batch := some (k - 1, st)} : Sys V B)).2) := by
      show ((exitN n (cacheExit true false s).1).1,
          ((cacheExit true false s).2).elim (exitN n (cacheExit true false s).1).2 some) = _
      rw [hexit]
      rfl
    rw [hstep]
    refine ⟨hrec.1, hrec.2.1, hrec.2.2.1, hrec.2.2.2.1, ?_, hrec.2.2.2.2.2⟩
    rw [show ((exitN n ({ s with batch := some (k - 1, st)} : Sys V B)).1,
        (exitN n ({ s with batch := some (k - 1, st)} : Sys V B)).2).1
      = (exitN n ({ s with batch := some (k - 1, st)} : Sys V B)).1 from rfl,
      hrec.2.2.2.2.1]
    congr 2
    omega

end BatchRun

section CacheClaims

variable {V B : Type} [DecidableEq V] [DecidableEq B]

/-- Claim C2 (corrected): a cache read fetches from the remote store
exactly the requested coordinates that are absent from both the shared
cache and the calling thread's open batch overlay, inserting the fetched
values into the shared cache, and a coordinate present in either layer
is never fetched.  The returned mapping, however, is overlay-over-cache
only when every requested coordinate the overlay holds is also in the
shared cache; a requested coordinate held by the overlay but missing
from the shared cache (excluded from the fetch set precisely because the
overlay knows it) makes the read raise `keyError` — the eagerly
evaluated `self._cache[v]` default of `batch.get` — instead of returning
the overlay's value. -/
theorem C2_get_layering (s : Sys V B) (ps : List V) :
    (∀ v, v ∈ unknownOf s ps ↔
        v ∈ ps ∧ alookup s.cache v = none ∧ alookup (overlayOf s) v = none)
    ∧ (cacheGet s ps).1.fetches =
        (if (unknownOf s ps).isEmpty then s.fetches else s.fetches ++ [unknownOf s ps])
    ∧ (∀ v ∈ unknownOf s ps, alookup (cacheGet s ps).1.cache v = some (s.remote v))
    ∧ (∀ v, v ∉ unknownOf s ps → alookup (cacheGet s ps).1.cache v = alookup s.cache v)
    ∧ ((∀ v ∈ ps, (alookup (overlayOf s) v).isSome = true →
          (alookup s.cache v).isSome = true) →
        ∃ L, (cacheGet s ps).2 = Except.ok L
          ∧ (∀ v ∈ ps, ∀ b, alookup (overlayOf s) v = some b → (v, b) ∈ L)
          ∧ (∀ v ∈ ps, alookup (overlayOf s) v = none →
              (v, (alookup (cacheGet s ps).1.cache v).getD (s.remote v)) ∈ L))
    ∧ ((∃ v ∈ ps, (alookup (overlayOf s) v).isSome = true
          ∧ alookup s.cache v = none) →
        (cacheGet s ps).2 = Except.error CErr.keyError) := by
  have hnodup : (unknownOf s ps).Nodup := (ps.nodup_dedup).filter _
  have hknodup : (akeys ((unknownOf s ps).map (fun w => (w, s.remote w)))).Nodup := by
    rw [akeys_map_self]
    exact hnodup
  have hc' : (cacheGet s ps).1.cache
      = aupdate s.cache ((unknownOf s ps).map (fun w => (w, s.remote w))) := rfl
  have hcache : ∀ v, alookup (cacheGet s ps).1.cache v
      = if v ∈ unknownOf s ps then some (s.remote v) else alookup s.cache v := by
    intro v
    rw [hc', alookup_aupdate, lwins_eq_alookup _ hknodup,
      alookup_map_self _ _ hnodup]
    by_cases hv : v ∈ unknownOf s ps <;> simp [hv]
  refine ⟨?_, rfl, ?_, ?_, ?_, ?_⟩
  · intro v
    simp [unknownOf, List.mem_filter, Option.isNone_iff_eq_none]
  · intro v hv
    rw [hcache v, if_pos hv]
  · intro v hv
    rw [hcache v, if_neg hv]
  · intro hovc
    have hsome : ∀ v ∈ ps, (alookup (cacheGet s ps).1.cache v).isSome = true := by
      intro v hv
      rw [hcache v]
      by_cases hm : v ∈ unknownOf s ps
      · simp [hm]
      · rw [if_neg hm]
        by_cases hcv : (alookup s.cache v).isSome = true
        · exact hcv
        · cases hov : alookup (overlayOf s) v with
          | some b => exact hovc v hv (by simp [hov])
          | none =>
            have hmem : v ∈ unknownOf s ps := by
              simp [unknownOf, List.mem_filter, List.mem_dedup, hv]
              constructor
              · simpa [Option.isNone_iff_eq_none,
                  Option.not_isSome_iff_eq_none] using hcv
              · simpa [Option.isNone_iff_eq_none] using hov
            exact absurd hmem hm
    refine ⟨ps.map (fun v => (v, (alookup (overlayOf s) v).getD
        ((alookup (cacheGet s ps).1.cache v).getD (s.remote v)))), ?_, ?_, ?_⟩
    · show readback
        (aupdate s.cache ((unknownOf s ps).map (fun w => (w, s.remote w))))
        (overlayOf s) ps = _
      refine readback_ok _ _ _ ps ?_
      intro v hv
      obtain ⟨c, hc⟩ := Option.isSome_iff_exists.mp (hsome v hv)
      show alookup (cacheGet s ps).1.cache v
          = some ((alookup (cacheGet s ps).1.cache v).getD (s.remote v))
      rw [hc]
      rfl
    · intro v hv b hov
      refine List.mem_map.mpr ⟨v, hv, ?_⟩
      rw [hov]
      rfl
    · intro v hv hov
      refine List.mem_map.mpr ⟨v, hv, ?_⟩
      rw [hov]
      rfl
  · rintro ⟨v, hv, hov, hcn⟩
    have hm : v ∉ unknownOf s ps := by
      intro hmem
      simp [unknownOf, List.mem_filter] at hmem
      rcases hmem with ⟨-, -, h2⟩
      rw [h2] at hov
      simp at hov
    have hcv' : alookup
        (aupdate s.cache ((unknownOf s ps).map (fun w => (w, s.remote w)))) v
        = none := by
      rw [show alookup
          (aupdate s.cache ((unknownOf s ps).map (fun w => (w, s.remote w)))) v
          = alookup (cacheGet s ps).1.cache v from rfl, hcache v, if_neg hm]
      exact hcn
    show readback
        (aupdate s.cache ((unknownOf s ps).map (fun w => (w, s.remote w))))
        (overlayOf s) ps = _
    exact readback_error _ _ ps ⟨v, hv, hcv'⟩

/-- Concrete system with no open batch used by the cache witnesses. -/
def sysW0 : Sys Int Int :=
  { remote := fun _ => 0
    cache := [(1, 1), (2, 0)]
    batch := none
    flushes := []
    fetches := []
    sets := 0 }

/-- Concrete system whose open batch overlay holds a binding for the
coordinate 1 that the shared cache lacks. -/
def sysW3 : Sys Int Int :=
  { remote := fun _ => 0
    cache := []
    batch := some (1, [(1, 5)])
    flushes := []
    fetches := []
    sets := 0 }

/-- Concrete system whose open batch overlay and shared cache both hold
the coordinate 1. -/
def sysW4 : Sys Int Int :=
  { remote := fun _ => 0
    cache := [(1, 1)]
    batch := some (1, [(1, 5)])
    flushes := []
    fetches := []
    sets := 0 }

/-- Witness for C2: over `sysW4` the uncached, un-overlaid coordinate 3
is fetched and inserted into the shared cache with the remote value, and
the read returns the overlay's value 5 for the overlaid (and cached)
coordinate 1. -/
theorem C2_get_layering_witness :
    alookup (cacheGet sysW4 [1, 3]).1.cache 3 = some (sysW4.remote 3)
    ∧ ∃ L, (cacheGet sysW4 [1, 3]).2 = Except.ok L
        ∧ ((1 : Int), (5 : Int)) ∈ L := by
  have h := C2_get_layering sysW4 [1, 3]
  refine ⟨h.2.2.1 3 (by decide), ?_⟩
  obtain ⟨L, hL, h1, h2⟩ := h.2.2.2.2.1 (by decide)
  exact ⟨L, hL, h1 1 (by decide) 5 (by decide)⟩

/-- Counterexample to C2 as frozen: requesting the coordinate 1, which
the overlay holds (value 5) but the shared cache does not, does not
return the overlay's value — the read raises `keyError` (and fetches
nothing, the coordinate being known to the overlay layer). -/
theorem C2_overlay_uncached_keyerror :
    alookup (overlayOf sysW3) 1 = some 5
    ∧ alookup sysW3.cache 1 = none
    ∧ (cacheGet sysW3 [1]).2 = Except.error CErr.keyError
    ∧ (cacheGet sysW3 [1]).1.fetches = [] :=
  ⟨rfl, rfl, rfl, rfl⟩

/-- Claim C4: error atomicity.  A failed outermost batch exit discards the
whole overlay and writes neither the shared cache nor the remote store;
and a non-batched set whose remote write fails (including the flush a
successful outermost exit performs) leaves the shared cache, the remote
store and the flush trace exactly as they were. -/
theorem C4_error_atomicity (ok : Bool) (s : Sys V B) (ps : List V) (bs : List B) :
    ((∃ st, s.batch = some (1, st)) →
        cacheExit ok true s = ({ s with batch := none }, none))
    ∧ (s.batch = none →
        (cacheSet false s ps bs).1.cache = s.cache
        ∧ (cacheSet false s ps bs).1.remote = s.remote
        ∧ (cacheSet false s ps bs).1.flushes = s.flushes)
    ∧ ((∃ st, s.batch = some (1, st)) →
        (cacheExit false false s).1.cache = s.cache
        ∧ (cacheExit false false s).1.remote = s.remote
        ∧ (cacheExit false false s).1.flushes = s.flushes) := by
  have hset : ∀ (t : Sys V B), t.batch = none →
      (cacheSet false t ps bs).1.cache = t.cache
      ∧ (cacheSet false t ps bs).1.remote = t.remote
      ∧ (cacheSet false t ps bs).1.flushes = t.flushes := by
    intro t ht
    cases hcd : computeDiff t.cache (ps.zip bs) with
    | none => simp [cacheSet, ht, hcd]
    | some diff =>
      by_cases hde : diff.isEmpty <;> simp [cacheSet, ht, hcd, hde]
  have hsetv : ∀ (t : Sys V B) (qs : List V) (cs : List B), t.batch = none →
      (cacheSet false t qs cs).1.cache = t.cache
      ∧ (cacheSet false t qs cs).1.remote = t.remote
      ∧ (cacheSet false t qs cs).1.flushes = t.flushes := by
    intro t qs cs ht
    cases hcd : computeDiff t.cache (qs.zip cs) with
    | none => simp [cacheSet, ht, hcd]
    | some diff =>
      by_cases hde : diff.isEmpty <;> simp [cacheSet, ht, hcd, hde]
  refine ⟨?_, fun hb => hset s hb, ?_⟩
  · rintro ⟨st, hb⟩
    simp [cacheExit, hb]
  · rintro ⟨st, hb⟩
    have hexit : cacheExit false false s
        = cacheSet false ({ s with batch := none } : Sys V B) (akeys st) (avals st) := by
      simp [cacheExit, hb]
    rw [hexit]
    exact hsetv { s with batch := none } (akeys st) (avals st) rfl

/-- Concrete system with an open depth-1 batch used by the C4 witness. -/
def sysW1 : Sys Int Int :=
  { remote := fun _ => 0
    cache := [(1, 1)]
    batch := some (1, [(5, 9)])
    flushes := []
    fetches := []
    sets := 0 }

/-- Witness for C4: a failed outermost exit only discards the overlay. -/
theorem C4_error_atomicity_witness :
    cacheExit true true sysW1 = ({ sysW1 with batch := none }, none) :=
  (C4_error_atomicity true sysW1 [] []).1 ⟨[(5, 9)], rfl⟩

/-- Claim C5: diff minimization.  A non-batched set whose written values
all equal the current shared-cache values performs zero remote calls and
leaves the system unchanged (up to the ghost call counter); in general a
non-batched set sends to the remote store only pairs whose value differs
from the current shared-cache value. -/
theorem C5_diff_minimization (ok : Bool) (s : Sys V B) (ps : List V) (bs : List B)
    (hb : s.batch = none) :
    ((∀ p ∈ ps.zip bs, alookup s.cache p.1 = some p.2) →
        cacheSet ok s ps bs = ({ s with sets := s.sets + 1 }, none))
    ∧ (∀ d, (cacheSet ok s ps bs).1.flushes = s.flushes ++ [d] →
        ∀ p ∈ d, ¬ alookup s.cache p.1 = some p.2) := by
  constructor
  · intro hall
    have hcd : computeDiff s.cache (ps.zip bs) = some [] :=
      computeDiffAux_eq_of_all_eq s.cache (ps.zip bs) hall []
    simp [cacheSet, hb, hcd]
  · intro d hfl
    cases hcd : computeDiff s.cache (ps.zip bs) with
    | none =>
      exfalso
      rw [show (cacheSet ok s ps bs).1.flushes = s.flushes by simp [cacheSet, hb, hcd]] at hfl
      simpa using congrArg List.length hfl
    | some diff =>
      by_cases hde : diff.isEmpty
      · exfalso
        rw [show (cacheSet ok s ps bs).1.flushes = s.flushes by
          simp [cacheSet, hb, hcd, hde]] at hfl
        simpa using congrArg List.length hfl
      · cases ok with
        | false =>
          exfalso
          rw [show (cacheSet false s ps bs).1.flushes = s.flushes by
            simp [cacheSet, hb, hcd, hde]] at hfl
          simpa using congrArg List.length hfl
        | true =>
          have hfl' : (cacheSet true s ps bs).1.flushes = s.flushes ++ [diff] := by
            simp [cacheSet, hb, hcd, hde]
          rw [hfl'] at hfl
          have hdd : diff = d := by
            have := List.append_cancel_left hfl
            simpa using this
          subst hdd
          exact computeDiffAux_all_diff s.cache (ps.zip bs) [] diff hcd
            (fun p hp => absurd hp (List.not_mem_nil p))

/-- Witness for C5: rewriting the cached values performs no remote call. -/
theorem C5_diff_minimization_witness :
    cacheSet true sysW0 [1, 2] [1, 0] = ({ sysW0 with sets := sysW0.sets + 1 }, none) :=
  (C5_diff_minimization true sysW0 [1, 2] [1, 0] rfl).1 (by decide)

/-- Claim C10: a non-batched set looks every written coordinate up in the
shared cache to compute the diff, so it succeeds exactly when every
written coordinate is already cached; otherwise it raises `KeyError` and
stores nothing. -/
theorem C10_set_requires_cached (s : Sys V B) (ps : List V) (bs : List B)
    (hb : s.batch = none) :
    ((cacheSet true s ps bs).2 = none ↔
        ∀ p ∈ ps.zip bs, (alookup s.cache p.1).isSome)
    ∧ ((cacheSet true s ps bs).2 ≠ none →
        (cacheSet true s ps bs).2 = some CErr.keyError
        ∧ (cacheSet true s ps bs).1.cache = s.cache
        ∧ (cacheSet true s ps bs).1.remote = s.remote
        ∧ (cacheSet true s ps bs).1.flushes = s.flushes) := by
  cases hcd : computeDiff s.cache (ps.zip bs) with
  | none =>
    have hiff := computeDiffAux_isSome_iff s.cache (ps.zip bs) []
    rw [show computeDiffAux s.cache [] (ps.zip bs) = computeDiff s.cache (ps.zip bs) from rfl,
      hcd] at hiff
    constructor
    · constructor
      · intro h
        exfalso
        rw [show (cacheSet true s ps bs).2 = some CErr.keyError by
          simp [cacheSet, hb, hcd]] at h
        cases h
      · intro h
        exact absurd ((hiff).mpr h) (by simp)
    · intro _
      refine ⟨by simp [cacheSet, hb, hcd], ?_, ?_, ?_⟩ <;> simp [cacheSet, hb, hcd]
  | some diff =>
    have hiff := computeDiffAux_isSome_iff s.cache (ps.zip bs) []
    rw [show computeDiffAux s.cache [] (ps.zip bs) = computeDiff s.cache (ps.zip bs) from rfl,
      hcd] at hiff
    have herr : (cacheSet true s ps bs).2 = none := by
      by_cases hde : diff.isEmpty <;> simp [cacheSet, hb, hcd, hde]
    constructor
    · rw [herr]
      simp only [true_iff]
      exact (hiff).mp (by simp)
    · intro h
      exact absurd herr h

/-- Witness for C10: writing the uncached coordinate 9 raises `KeyError`
and stores nothing. -/
theorem C10_set_requires_cached_witness :
    (cacheSet true sysW0 [9] [3]).2 = some CErr.keyError
    ∧ (cacheSet true sysW0 [9] [3]).1.cache = sysW0.cache
    ∧ (cacheSet true sysW0 [9] [3]).1.remote = sysW0.remote
    ∧ (cacheSet true sysW0 [9] [3]).1.flushes = sysW0.flushes :=
  (C10_set_requires_cached sysW0 [9] [3] rfl).2 (by decide)

theorem nodup_akeys_ovAfter (ws : List (List V × List B)) (st : List (V × B))
    (h : (akeys st).Nodup) : (akeys (ovAfter st ws)).Nodup := by
  induction ws generalizing st with
  | nil => exact h
  | cons w ws ih => exact ih _ (nodup_akeys_aupdate _ _ h)

/-- Claim C3: entering the batch scope N times on one thread, issuing any
writes inside, and exiting N times without an exception performs no
remote call (no flush, no fetch) before the outermost exit; the
outermost exit triggers at most one remote flush whose pairs all come
from the net effect of the writes (last write wins per coordinate), and
the remote store ends up holding exactly that net effect. -/
theorem C3_batch_nesting (N : Nat) (ws : List (List V × List B)) (s : Sys V B)
    (hN : 1 ≤ N) (hb : s.batch = none) (hcoh : Coh s)
    (hnet : ∀ p ∈ netOf ws, (alookup s.cache p.1).isSome) :
    (exitN (N - 1) (writeAll ws (enterN N s))).1.flushes = s.flushes
    ∧ (exitN (N - 1) (writeAll ws (enterN N s))).1.remote = s.remote
    ∧ (exitN (N - 1) (writeAll ws (enterN N s))).1.fetches = s.fetches
    ∧ (exitN (N - 1) (writeAll ws (enterN N s))).2 = none
    ∧ (cacheExit true false (exitN (N - 1) (writeAll ws (enterN N s))).1).2 = none
    ∧ ((cacheExit true false (exitN (N - 1) (writeAll ws (enterN N s))).1).1.flushes
          = s.flushes
       ∨ ∃ d, (cacheExit true false (exitN (N - 1) (writeAll ws (enterN N s))).1).1.flushes
            = s.flushes ++ [d]
          ∧ ∀ p ∈ d, alookup (netOf ws) p.1 = some p.2)
    ∧ (∀ v, (cacheExit true false (exitN (N - 1) (writeAll ws (enterN N s))).1).1.remote v
        = ovw s.remote (netOf ws) v) := by
  obtain ⟨m, rfl⟩ : ∃ m, N = m + 1 := ⟨N - 1, by omega⟩
  have hm1 : m + 1 - 1 = m := by omega
  have hce : cacheEnter s = { s with batch := some (1, []) } := by
    simp [cacheEnter, hb]
  have h1 : enterN (m + 1) s = { s with batch := some (1 + m, []) } := by
    rw [show enterN (m + 1) s = enterN m (cacheEnter s) from rfl, hce,
      enterN_some m 1 [] _ rfl]
  have h2 := writeAll_batch ws (1 + m) []
    ({ s with batch := some (1 + m, []) } : Sys V B) rfl
  rw [← h1] at h2
  have hWbatch : (writeAll ws (enterN (m + 1) s)).batch = some (1 + m, netOf ws) :=
    h2.2.2.2.2
  have h3 := exitN_inner m (1 + m) (netOf ws) _ hWbatch (by omega)
  have hmm : 1 + m - m = 1 := by omega
  rw [hmm] at h3
  rw [hm1]
  have hEflushes : (enterN (m + 1) s).flushes = s.flushes := by rw [h1]
  have hEremote : (enterN (m + 1) s).remote = s.remote := by rw [h1]
  have hEcache : (enterN (m + 1) s).cache = s.cache := by rw [h1]
  have hEfetches : (enterN (m + 1) s).fetches = s.fetches := by rw [h1]
  have hmidflushes : (exitN m (writeAll ws (enterN (m + 1) s))).1.flushes = s.flushes :=
    h3.2.2.1.trans (h2.2.2.1.trans hEflushes)
  have hmidremote : (exitN m (writeAll ws (enterN (m + 1) s))).1.remote = s.remote :=
    h3.1.trans (h2.1.trans hEremote)
  have hmidcache : (exitN m (writeAll ws (enterN (m + 1) s))).1.cache = s.cache :=
    h3.2.1.trans (h2.2.1.trans hEcache)
  have hmidfetches : (exitN m (writeAll ws (enterN (m + 1) s))).1.fetches = s.fetches :=
    h3.2.2.2.1.trans (h2.2.2.2.1.trans hEfetches)
  have hmidbatch : (exitN m (writeAll ws (enterN (m + 1) s))).1.batch
      = some (1, netOf ws) := h3.2.2.2.2.1
  refine ⟨hmidflushes, hmidremote, hmidfetches, h3.2.2.2.2.2, ?_⟩
  have hfin : cacheExit true false (exitN m (writeAll ws (enterN (m + 1) s))).1
      = cacheSet true
          ({ (exitN m (writeAll ws (enterN (m + 1) s))).1 with batch := none } : Sys V B)
          (akeys (netOf ws)) (avals (netOf ws)) := by
    simp [cacheExit, hmidbatch]
  have hcoh' : Coh ({ (exitN m (writeAll ws (enterN (m + 1) s))).1 with batch := none } : Sys V B) := by
    intro v b hv
    rw [show ({ (exitN m (writeAll ws (enterN (m + 1) s))).1 with batch := none } : Sys V B).cache
      = (exitN m (writeAll ws (enterN (m + 1) s))).1.cache from rfl, hmidcache] at hv
    rw [show ({ (exitN m (writeAll ws (enterN (m + 1) s))).1 with batch := none } : Sys V B).remote
      = (exitN m (writeAll ws (enterN (m + 1) s))).1.remote from rfl, hmidremote]
    exact hcoh v b hv
  have hkeys' : ∀ p ∈ netOf ws,
      (alookup ({ (exitN m (writeAll ws (enterN (m + 1) s))).1 with batch := none } : Sys V B).cache p.1).isSome := by
    intro p hp
    rw [show ({ (exitN m (writeAll ws (enterN (m + 1) s))).1 with batch := none } : Sys V B).cache
      = (exitN m (writeAll ws (enterN (m + 1) s))).1.cache from rfl, hmidcache]
    exact hnet p hp
  have hflush := cacheSet_flush
    ({ (exitN m (writeAll ws (enterN (m + 1) s))).1 with batch := none } : Sys V B)
    (netOf ws) rfl (nodup_akeys_ovAfter ws [] List.nodup_nil) hcoh' hkeys'
  rw [hfin]
  refine ⟨hflush.1, ?_, ?_⟩
  · rcases hflush.2.2.2.1 with hsame | ⟨d, hd, hdall⟩
    · exact Or.inl (hsame.trans hmidflushes)
    · exact Or.inr ⟨d, by rw [hd, hmidflushes], hdall⟩
  · intro v
    have := hflush.2.1 v
    rw [this, ovw, ovw,
      show ({ (exitN m (writeAll ws (enterN (m + 1) s))).1 with batch := none } : Sys V B).remote
        = (exitN m (writeAll ws (enterN (m + 1) s))).1.remote from rfl, hmidremote]

/-- Concrete coherent system with empty batch state for the C3 witness. -/
def sysW2 : Sys Int Int :=
  { remote := fun _ => 0
    cache := [(1, 0), (2, 0)]
    batch := none
    flushes := []
    fetches := []
    sets := 0 }

/-- Witness for C3: a depth-2 nested batch with two inner writes reaches
the inner exit with no flush performed and no error raised. -/
theorem C3_batch_nesting_witness :
    (exitN (2 - 1) (writeAll [([1], [7]), ([1, 2], [8, 3])] (enterN 2 sysW2))).1.flushes
        = sysW2.flushes
    ∧ (exitN (2 - 1) (writeAll [([1], [7]), ([1, 2], [8, 3])] (enterN 2 sysW2))).2 = none :=
  ⟨(C3_batch_nesting 2 [([1], [7]), ([1, 2], [8, 3])] sysW2 (by decide) rfl
      (coh_of_mem _ (by decide)) (by decide)).1,
   (C3_batch_nesting 2 [([1], [7]), ([1, 2], [8, 3])] sysW2 (by decide) rfl
      (coh_of_mem _ (by decide)) (by decide)).2.2.2.1⟩

end CacheClaims

section TurtleModel

/-- Action tags recorded in the undo history. -/
inductive Action
  | home
  | move
  | line
  | turtle
deriving DecidableEq, Repr

/-- The `TurtleState` named tuple: one immutable snapshot of the agent
(position, heading vector, elevation angle, visibility, pen state, pen
and fill blocks, the reverse diff of the commit that produced it, and
its action tag). -/
structure TState (V : Type) where
  position : V
  heading : V
  elevation : Rat
  visible : Bool
  pendown : Bool
  penblock : Block
  fillblock : Block
  changed : List (V × Block)
  action : Action
deriving DecidableEq

/-- Modelled from the spec: the geometry collaborator `picraft.vector`
(not under the sources) at its interface: origin and unit axes, vector
arithmetic, cross product, normalization, rotation about an axis by a
signed angle in degrees, rounding to cell coordinates, and the inclusive
straight-line rasterization consumed by `_update`. -/
structure Geo (V : Type) where
  o : V
  x : V
  y : V
  z : V
  add : V → V → V
  sub : V → V → V
  smul : Rat → V → V
  cross : V → V → V
  unit : V → V
  rnd : V → V
  rotate : V → Rat → V → V
  line : V → V → List V

/-- The `clamp` helper of the source. -/
def clamp (value lo hi : Rat) : Rat := min hi (max lo value)

variable {V : Type} [DecidableEq V]

/-- A `Turtle` object: current snapshot (`self._state`), last committed
position (`self._last_position`), undo history with the most recent
entry first (the source appends at the end of `self._history`), the
screen's cache system, and the first error raised while drawing (a
raised exception aborts the Python operation after the same mutations). -/
structure Turtle (V : Type) where
  state : TState V
  lastPosition : V
  history : List (TState V)
  sys : Sys V Block
  err : Option CErr

/-- Drawing through `TurtleScreen.draw`: one `__setitem__` call on the
cache. -/
def tDraw (t : Turtle V) (m : List (V × Block)) : Turtle V :=
  let r := cacheSet true t.sys (akeys m) (avals m)
  { t with sys := r.1, err := t.err.elim r.2 some }

/-- Opening the screen cache batch scope (`with self._screen.blocks:`). -/
def tEnter (t : Turtle V) : Turtle V := { t with sys := cacheEnter t.sys }

/-- Closing the screen cache batch scope. -/
def tExit (t : Turtle V) : Turtle V :=
  let r := cacheExit true false t.sys
  { t with sys := r.1, err := t.err.elim r.2 some }

/-- The tail of `Turtle._commit` once the reverse-diff read has come
back: on `keyError` the exception propagates — no history entry is
pushed and nothing is drawn — while on a successful read the entry
carrying the read-back values is pushed and a non-empty change map is
drawn. -/
def commitFin (t : Turtle V) (m : List (V × Block)) (a : Action)
    (s' : Sys V Block) : Except CErr (List (V × Block)) → Turtle V
  | .error e => { t with sys := s', err := t.err.elim (some e) some }
  | .ok rd =>
    let t' : Turtle V := { t with
      sys := s'
      history := { t.state with changed := rd, action := a } :: t.history }
    if m.isEmpty then t' else tDraw t' m

/-- `Turtle._commit`: read the current values of exactly the affected
cells (a cache read, which raises `keyError` on an affected cell held by
the overlay but missing from the shared cache) as the reverse diff, push
a history entry carrying them and the action tag, then draw the changes;
an empty change set still pushes the entry but draws nothing, and a
failed read pushes nothing. -/
def commit (t : Turtle V) (m : List (V × Block)) (a : Action) : Turtle V :=
  commitFin t m a (cacheGet t.sys (akeys m)).1 (cacheGet t.sys (akeys m)).2

theorem commit_err_eq (t : Turtle V) (m : List (V × Block)) (a : Action)
    (e : CErr) (h : (cacheGet t.sys (akeys m)).2 = .error e) :
    commit t m a = { t with
      sys := (cacheGet t.sys (akeys m)).1,
      err := t.err.elim (some e) some } := by
  show commitFin t m a (cacheGet t.sys (akeys m)).1 (cacheGet t.sys (akeys m)).2 = _
  rw [h]
  rfl

theorem commit_ok (t : Turtle V) (m : List (V × Block)) (a : Action)
    (rd : List (V × Block)) (h : (cacheGet t.sys (akeys m)).2 = .ok rd) :
    commit t m a = (if m.isEmpty then
        ({ t with
            sys := (cacheGet t.sys (akeys m)).1,
            history := { t.state with changed := rd, action := a }
              :: t.history } : Turtle V)
      else tDraw { t with
          sys := (cacheGet t.sys (akeys m)).1,
          history := { t.state with changed := rd, action := a }
            :: t.history } m) := by
  show commitFin t m a (cacheGet t.sys (akeys m)).1 (cacheGet t.sys (akeys m)).2 = _
  rw [h]
  rfl

/-- `Turtle._draw_vectors`: arm and head unit vectors from the current
heading and elevation (with the `X` fallback when the heading is
parallel to the vertical axis). -/
def drawVectors (g : Geo V) (st : TState V) : V × V :=
  let arm0 := g.unit (g.cross st.heading g.y)
  let arm := if arm0 = g.o then g.x else arm0
  (arm, g.rotate st.heading st.elevation arm)

/-- The cell map drawn by `Turtle._draw_turtle`: head and both arms in
`wool 15`, plus the pen block at the agent's own cell when the pen is
down. -/
def markerMap (g : Geo V) (st : TState V) : List (V × Block) :=
  let av := drawVectors g st
  let head := g.rnd (g.add st.position av.2)
  let la := g.rnd (g.add st.position av.1)
  let ra := g.rnd (g.sub st.position av.1)
  let m := aset (aset (aset [] head woolBlock) la woolBlock) ra woolBlock
  if st.pendown then aset m st.position st.penblock else m

/-- `Turtle._draw_turtle`: commit the marker cells with tag `turtle`. -/
def drawTurtle (g : Geo V) (t : Turtle V) : Turtle V :=
  commit t (markerMap g t.state) .turtle

/-- The popping loop of `Turtle._undraw_turtle`: while the top entry is
tagged `turtle`, pop it and draw its reverse diff. -/
def undrawLoop : Sys V Block → Option CErr → List (TState V) →
    Sys V Block × Option CErr × List (TState V)
  | s, e, [] => (s, e, [])
  | s, e, st :: rest =>
    if st.action = .turtle then
      let r := cacheSet true s (akeys st.changed) (avals st.changed)
      undrawLoop r.1 (e.elim r.2 some) rest
    else (s, e, st :: rest)

/-- The state effect of the `_undraw_turtle` loop on a turtle. -/
def undrawPop (t : Turtle V) : Turtle V :=
  let r := undrawLoop t.sys t.err t.history
  { t with sys := r.1, err := r.2.1, history := r.2.2 }

/-- `Turtle._undraw_turtle` (the loop runs inside its own batch scope). -/
def undrawTurtle (t : Turtle V) : Turtle V :=
  tExit (undrawPop (tEnter t))

/-- The cell map of a pen line:
`{v: penblock for v in line(last, new)}`. -/
def lineMap (g : Geo V) (a b : V) (pen : Block) : List (V × Block) :=
  aupdate [] ((g.line a b).map (fun v => (v, pen)))

/-- Step (c) of `_update`: commit the pen line when the pen is down and
the position changed, else commit an empty `move`. -/
def lineOrMove (g : Geo V) (t : Turtle V) : Turtle V :=
  if t.state.pendown ∧ t.state.position ≠ t.lastPosition then
    commit t (lineMap g t.lastPosition t.state.position t.state.penblock) .line
  else
    commit t [] .move

/-- Step (d) of `_update`: redraw the marker when the agent is visible. -/
def maybeMarker (g : Geo V) (t : Turtle V) : Turtle V :=
  if t.state.visible then drawTurtle g t else t

/-- Step (e) of `_update`: record the new last position. -/
def setLastPos (t : Turtle V) : Turtle V :=
  { t with lastPosition := t.state.position }

/-- `Turtle._update`: inside one batch scope, undraw the marker, commit
the line (pen down and position changed) or an empty move, redraw the
marker if visible, and record the new last position. -/
def updateStep (g : Geo V) (t : Turtle V) : Turtle V :=
  tExit (setLastPos (maybeMarker g (lineOrMove g (undrawTurtle (tEnter t)))))

/-- `Turtle.undo`: strip trailing `turtle` entries, then if the top entry
is not the `home` sentinel pop it, draw its reverse diff and restore the
snapshot below; finally redraw the marker if visible.  (The source would
raise `IndexError` were the history to become empty, which is
unreachable; the model leaves the state unchanged there.)  `undoPop` is
the popping step alone. -/
def undoPopAux (t : Turtle V) : List (TState V) → Turtle V
  | e :: h :: rest =>
    if e.action ≠ .home then
      { tDraw { t with history := h :: rest } e.changed with
        state := h, lastPosition := h.position }
    else t
  | [e] =>
    if e.action ≠ .home then tDraw { t with history := [] } e.changed else t
  | [] => t

/-- The pop-and-restore step of `Turtle.undo` applied to the turtle's own
history. -/
def undoPop (t : Turtle V) : Turtle V :=
  undoPopAux t t.history

/-- `Turtle.undo` as the composition of its steps. -/
def undoStep (g : Geo V) (t : Turtle V) : Turtle V :=
  tExit (maybeMarker g (undoPop (undrawTurtle (tEnter t))))

/-- The snapshot `Turtle.home` installs: position from the origin stored
in the first history entry, default heading and elevation. -/
def homeState (g : Geo V) (t : Turtle V) : TState V :=
  { t.state with
    position := ((t.history.getLast?).elim t.state id).position
    heading := g.z
    elevation := 0 }

/-- `Turtle.home`: reset position to the origin stored in the first
history entry and the orientation to the default, then `_update`. -/
def homeStep (g : Geo V) (t : Turtle V) : Turtle V :=
  updateStep g { t with state := homeState g t }

/-- The popping loop of `Turtle.clear`: pop and undraw every entry down
to (but not including) the `home` sentinel. -/
def clearLoop : Sys V Block → Option CErr → List (TState V) →
    Sys V Block × Option CErr × List (TState V)
  | s, e, [] => (s, e, [])
  | s, e, st :: rest =>
    if st.action ≠ .home then
      let r := cacheSet true s (akeys st.changed) (avals st.changed)
      clearLoop r.1 (e.elim r.2 some) rest
    else (s, e, st :: rest)

/-- The state effect of the `clear` popping loop on a turtle. -/
def clearPop (t : Turtle V) : Turtle V :=
  let r := clearLoop t.sys t.err t.history
  { t with sys := r.1, err := r.2.1, history := r.2.2 }

/-- `Turtle.clear`. -/
def clearStep (g : Geo V) (t : Turtle V) : Turtle V :=
  tExit (updateStep g (clearPop (tEnter t)))

/-- The `self._last_position = self._history[0].position` step of
`Turtle.reset`. -/
def resetLast (t : Turtle V) : Turtle V :=
  { t with lastPosition := ((t.history.getLast?).elim t.state id).position }

/-- `Turtle.reset`: `clear`, force the last position to the origin, then
`home`, all inside one batch scope. -/
def resetStep (g : Geo V) (t : Turtle V) : Turtle V :=
  tExit (homeStep g (resetLast (clearStep g (tEnter t))))

/-- The initial snapshot `Turtle.__init__` installs: the `home` sentinel
(default heading, elevation, pen and visibility, empty change set). -/
def initTS (g : Geo V) (pos : V) : TState V :=
  { position := pos, heading := g.z, elevation := 0, visible := true,
    pendown := true, penblock := stoneBlock, fillblock := stoneBlock,
    changed := [], action := .home }

/-- `Turtle.__init__` at a given start position over a given screen
system: the initial snapshot is the `home` sentinel, and the marker is
drawn immediately (outside any batch). -/
def turtleInit (g : Geo V) (pos : V) (s : Sys V Block) : Turtle V :=
  drawTurtle g { state := initTS g pos, lastPosition := pos,
                 history := [initTS g pos], sys := s, err := none }

/-- The state-changing operations of claim C1: each one replaces
snapshot fields and calls `_update`. -/
inductive TOp (V : Type)
  | forward (d : Rat)
  | backward (d : Rat)
  | left (a : Rat)
  | right (a : Rat)
  | up (a : Rat)
  | down (a : Rat)
  | goto (p : V)
  | setheading (a : Rat)
  | setelevation (a : Rat)
  | penup
  | pendown
  | penblockSet (b : Block)
  | fillblockSet (b : Block)
  | showturtle
  | hideturtle

/-- The snapshot each operation installs before calling `_update`,
mirroring the `self._state = self._state._replace(...)` of each source
method. -/
def opState (g : Geo V) (t : Turtle V) : TOp V → TState V
  | .forward d =>
    { t.state with position :=
        (g.rnd (g.add t.state.position (g.smul d (drawVectors g t.state).2))) }
  | .backward d =>
    { t.state with position :=
        (g.rnd (g.sub t.state.position (g.smul d (drawVectors g t.state).2))) }
  | .left a => { t.state with heading := g.rotate t.state.heading a g.y }
  | .right a => { t.state with heading := g.rotate t.state.heading (-a) g.y }
  | .up a => { t.state with elevation := clamp (t.state.elevation + a) (-90) 90 }
  | .down a => { t.state with elevation := clamp (t.state.elevation - a) (-90) 90 }
  | .goto p => { t.state with position := p }
  | .setheading a => { t.state with heading := g.rotate g.z a g.y }
  | .setelevation a => { t.state with elevation := clamp a (-90) 90 }
  | .penup => { t.state with pendown := false }
  | .pendown => { t.state with pendown := true }
  | .penblockSet b => { t.state with penblock := b }
  | .fillblockSet b => { t.state with fillblock := b }
  | .showturtle => { t.state with visible := true }
  | .hideturtle => { t.state with visible := false }

/-- Apply a state-changing operation (snapshot change followed by
`_update`). -/
def applyOp (g : Geo V) (op : TOp V) (t : Turtle V) : Turtle V :=
  updateStep g { t with state := opState g t op }

/-- All public operations, for the reachability relation of claim C6. -/
inductive PubOp (V : Type)
  | op (o : TOp V)
  | undo
  | home
  | clear
  | reset

/-- Apply any public operation. -/
def applyPub (g : Geo V) (p : PubOp V) (t : Turtle V) : Turtle V :=
  match p with
  | .op o => applyOp g o t
  | .undo => undoStep g t
  | .home => homeStep g t
  | .clear => clearStep g t
  | .reset => resetStep g t

/-- Turtles reachable from initialization by public operations. -/
inductive Reach (g : Geo V) : Turtle V → Prop
  | init (pos : V) (s : Sys V Block) : Reach g (turtleInit g pos s)
  | step (t : Turtle V) (p : PubOp V) : Reach g t → Reach g (applyPub g p t)

/-- Equality of the user-visible snapshot fields: position, heading,
elevation, visibility, pen state, pen and fill blocks. -/
def eqvis (a b : TState V) : Prop :=
  a.position = b.position ∧ a.heading = b.heading ∧ a.elevation = b.elevation
  ∧ a.visible = b.visible ∧ a.pendown = b.pendown
  ∧ a.penblock = b.penblock ∧ a.fillblock = b.fillblock

instance (a b : TState V) : Decidable (eqvis a b) := by
  unfold eqvis
  infer_instance

end TurtleModel

section SentinelLemmas

variable {V : Type} [DecidableEq V]

theorem getLast?_cons_ne_nil {α : Type} (a : α) (l : List α) (h : l ≠ []) :
    (a :: l).getLast? = l.getLast? := by
  cases l with
  | nil => exact absurd rfl h
  | cons b m => exact List.getLast?_cons_cons

theorem ne_nil_of_getLast?_eq_some {α : Type} {l : List α} {e : α}
    (h : l.getLast? = some e) : l ≠ [] := by
  intro hnil
  rw [hnil] at h
  cases h

theorem commit_state (t : Turtle V) (m : List (V × Block)) (a : Action) :
    (commit t m a).state = t.state := by
  cases hr : (cacheGet t.sys (akeys m)).2 with
  | error e => rw [commit_err_eq t m a e hr]
  | ok rd =>
    rw [commit_ok t m a rd hr]
    by_cases hm : m.isEmpty
    · rw [if_pos hm]
    · rw [if_neg hm]
      rfl

theorem commit_getLast (t : Turtle V) (m : List (V × Block)) (a : Action)
    (h : t.history ≠ []) :
    (commit t m a).history.getLast? = t.history.getLast? := by
  cases hr : (cacheGet t.sys (akeys m)).2 with
  | error e => rw [commit_err_eq t m a e hr]
  | ok rd =>
    rw [commit_ok t m a rd hr]
    by_cases hm : m.isEmpty
    · rw [if_pos hm]
      exact getLast?_cons_ne_nil _ _ h
    · rw [if_neg hm]
      exact getLast?_cons_ne_nil _ _ h

theorem undrawLoop_getLast :
    ∀ (hist : List (TState V)) (s : Sys V Block) (er : Option CErr) (e : TState V),
      hist.getLast? = some e → e.action ≠ .turtle →
      (undrawLoop s er hist).2.2.getLast? = some e := by
  intro hist
  induction hist with
  | nil =>
    intro s er e he _
    cases he
  | cons st rest ih =>
    intro s er e he hne
    by_cases ht : st.action = .turtle
    · have hrest : rest ≠ [] := by
        intro hnil
        rw [hnil] at he
        have hst : st = e := by simpa using he
        exact hne (hst ▸ ht)
      have he' : rest.getLast? = some e := by
        rw [← getLast?_cons_ne_nil st rest hrest]
        exact he
      have hstep : undrawLoop s er (st :: rest)
          = undrawLoop (cacheSet true s (akeys st.changed) (avals st.changed)).1
              (er.elim (cacheSet true s (akeys st.changed) (avals st.changed)).2 some)
              rest := by
        simp [undrawLoop, ht]
      rw [hstep]
      exact ih _ _ e he' hne
    · have hstep : undrawLoop s er (st :: rest) = (s, er, st :: rest) := by
        simp [undrawLoop, ht]
      rw [hstep]
      exact he

theorem clearLoop_getLast :
    ∀ (hist : List (TState V)) (s : Sys V Block) (er : Option CErr) (e : TState V),
      hist.getLast? = some e → e.action = .home →
      (clearLoop s er hist).2.2.getLast? = some e := by
  intro hist
  induction hist with
  | nil =>
    intro s er e he _
    cases he
  | cons st rest ih =>
    intro s er e he hhome
    by_cases ht : st.action ≠ .home
    · have hrest : rest ≠ [] := by
        intro hnil
        rw [hnil] at he
        have hst : st = e := by simpa using he
        exact ht (hst ▸ hhome)
      have he' : rest.getLast? = some e := by
        rw [← getLast?_cons_ne_nil st rest hrest]
        exact he
      have hstep : clearLoop s er (st :: rest)
          = clearLoop (cacheSet true s (akeys st.changed) (avals st.changed)).1
              (er.elim (cacheSet true s (akeys st.changed) (avals st.changed)).2 some)
              rest := by
        simp [clearLoop, ht]
      rw [hstep]
      exact ih _ _ e he' hhome
    · have hstep : clearLoop s er (st :: rest) = (s, er, st :: rest) := by
        simp [clearLoop, ht]
      rw [hstep]
      exact he

theorem undrawTurtle_getLast (t : Turtle V) (e : TState V)
    (he : t.history.getLast? = some e) (hne : e.action ≠ .turtle) :
    (undrawTurtle t).history.getLast? = some e := by
  show (undrawLoop (cacheEnter t.sys) t.err t.history).2.2.getLast? = some e
  exact undrawLoop_getLast t.history _ _ e he hne

theorem lineOrMove_state (g : Geo V) (t : Turtle V) :
    (lineOrMove g t).state = t.state := by
  by_cases hc : t.state.pendown ∧ t.state.position ≠ t.lastPosition <;>
    simp [lineOrMove, hc, commit_state]

theorem lineOrMove_getLast (g : Geo V) (t : Turtle V) (h : t.history ≠ []) :
    (lineOrMove g t).history.getLast? = t.history.getLast? := by
  by_cases hc : t.state.pendown ∧ t.state.position ≠ t.lastPosition <;>
    simp [lineOrMove, hc, commit_getLast _ _ _ h]

theorem maybeMarker_getLast (g : Geo V) (t : Turtle V) (h : t.history ≠ []) :
    (maybeMarker g t).history.getLast? = t.history.getLast? := by
  by_cases hv : t.state.visible <;>
    simp [maybeMarker, drawTurtle, hv, commit_getLast _ _ _ h]

theorem updateStep_getLast (g : Geo V) (t : Turtle V) (e : TState V)
    (he : t.history.getLast? = some e) (hhome : e.action = .home) :
    (updateStep g t).history.getLast? = some e := by
  have h1 : (undrawTurtle (tEnter t)).history.getLast? = some e :=
    undrawTurtle_getLast (tEnter t) e he (by simp [hhome])
  have h1n := ne_nil_of_getLast?_eq_some h1
  have h2 : (lineOrMove g (undrawTurtle (tEnter t))).history.getLast? = some e :=
    (lineOrMove_getLast g _ h1n).trans h1
  have h2n := ne_nil_of_getLast?_eq_some h2
  have h3 : (maybeMarker g (lineOrMove g (undrawTurtle (tEnter t)))).history.getLast?
      = some e :=
    (maybeMarker_getLast g _ h2n).trans h2
  exact h3

theorem undoPop_getLast (t : Turtle V) (e : TState V)
    (he : t.history.getLast? = some e) (hhome : e.action = .home) :
    (undoPop t).history.getLast? = some e := by
  rw [show undoPop t = undoPopAux t t.history from rfl]
  cases hh : t.history with
  | nil =>
    rw [hh] at he
    cases he
  | cons e1 rest =>
    rw [hh] at he
    cases hr : rest with
    | nil =>
      rw [hr] at he
      have hst : e1 = e := by simpa using he
      have ha : ¬ e1.action ≠ .home := by
        rw [hst, hhome]
        simp
      simp only [undoPopAux, if_neg ha]
      rw [hh, hr]
      exact he
    | cons h2 m =>
      rw [hr] at he
      have he' : (h2 :: m).getLast? = some e := by
        rw [← List.getLast?_cons_cons (a := e1)]
        exact he
      by_cases ha : e1.action ≠ .home
      · simp only [undoPopAux, if_pos ha]
        show (h2 :: m).getLast? = some e
        exact he'
      · simp only [undoPopAux, if_neg ha]
        rw [hh, hr]
        exact he

theorem undoStep_getLast (g : Geo V) (t : Turtle V) (e : TState V)
    (he : t.history.getLast? = some e) (hhome : e.action = .home) :
    (undoStep g t).history.getLast? = some e := by
  have h1 := undrawTurtle_getLast (tEnter t) e he (by simp [hhome])
  have h2 := undoPop_getLast (undrawTurtle (tEnter t)) e h1 hhome
  have h2n := ne_nil_of_getLast?_eq_some h2
  exact (maybeMarker_getLast g _ h2n).trans h2

theorem homeStep_getLast (g : Geo V) (t : Turtle V) (e : TState V)
    (he : t.history.getLast? = some e) (hhome : e.action = .home) :
    (homeStep g t).history.getLast? = some e :=
  updateStep_getLast g { t with state := homeState g t } e he hhome

theorem clearStep_getLast (g : Geo V) (t : Turtle V) (e : TState V)
    (he : t.history.getLast? = some e) (hhome : e.action = .home) :
    (clearStep g t).history.getLast? = some e := by
  have h1 : (clearPop (tEnter t)).history.getLast? = some e :=
    clearLoop_getLast t.history _ _ e he hhome
  exact updateStep_getLast g (clearPop (tEnter t)) e h1 hhome

theorem resetStep_getLast (g : Geo V) (t : Turtle V) (e : TState V)
    (he : t.history.getLast? = some e) (hhome : e.action = .home) :
    (resetStep g t).history.getLast? = some e := by
  have h1 := clearStep_getLast g (tEnter t) e he hhome
  exact homeStep_getLast g (resetLast (clearStep g (tEnter t))) e h1 hhome

theorem applyPub_getLast (g : Geo V) (p : PubOp V) (t : Turtle V) (e : TState V)
    (he : t.history.getLast? = some e) (hhome : e.action = .home) :
    (applyPub g p t).history.getLast? = some e := by
  cases p with
  | op o => exact updateStep_getLast g { t with state := opState g t o } e he hhome
  | undo => exact undoStep_getLast g t e he hhome
  | home => exact homeStep_getLast g t e he hhome
  | clear => exact clearStep_getLast g t e he hhome
  | reset => exact resetStep_getLast g t e he hhome

/-- Claim C6: for every reachable turtle the history stack is non-empty
and its first entry (the bottom of the stack) carries the action tag
`home`; moreover no public operation ever pops that first entry — the
bottom entry after any operation is the same entry. -/
theorem C6_sentinel_invariant (g : Geo V) (t : Turtle V) (h : Reach g t) :
    (∃ e, t.history.getLast? = some e ∧ e.action = .home)
    ∧ ∀ p : PubOp V, (applyPub g p t).history.getLast? = t.history.getLast? := by
  have main : ∃ e, t.history.getLast? = some e ∧ e.action = .home := by
    induction h with
    | init pos s =>
      refine ⟨initTS g pos, ?_, rfl⟩
      show (commit ({
          state := initTS g pos, lastPosition := pos,
          history := [initTS g pos], sys := s, err := none } : Turtle V)
          (markerMap g (initTS g pos)) Action.turtle).history.getLast? = _
      rw [commit_getLast _ _ _ (List.cons_ne_nil _ _)]
      rfl
    | step t p ht ih =>
      obtain ⟨e, he, hhome⟩ := ih
      exact ⟨e, applyPub_getLast g p t e he hhome, hhome⟩
  obtain ⟨e, he, hhome⟩ := main
  refine ⟨⟨e, he, hhome⟩, ?_⟩
  intro p
  rw [applyPub_getLast g p t e he hhome, he]

end SentinelLemmas

section ScenarioGeo

/-- Integer cell triples: the concrete coordinate type of the scenario
developments (all cells and positions the scenarios touch are whole). -/
abbrev ZV : Type := Int × Int × Int

/-- Componentwise sum of cell triples. -/
def zadd (a b : ZV) : ZV := (a.1 + b.1, a.2.1 + b.2.1, a.2.2 + b.2.2)

/-- Componentwise difference of cell triples. -/
def zsub (a b : ZV) : ZV := (a.1 - b.1, a.2.1 - b.2.1, a.2.2 - b.2.2)

/-- Dot product of cell triples. -/
def zdot (a b : ZV) : Int := a.1 * b.1 + a.2.1 * b.2.1 + a.2.2 * b.2.2

/-- Modelled from the spec: vector cross product. -/
def zcross (a b : ZV) : ZV :=
  (a.2.1 * b.2.2 - a.2.2 * b.2.1,
   a.2.2 * b.1 - a.1 * b.2.2,
   a.1 * b.2.1 - a.2.1 * b.1)

/-- Integer scalar multiple of a cell triple. -/
def zsmulInt (c : Int) (v : ZV) : ZV := (c * v.1, c * v.2.1, c * v.2.2)

/-- Modelled from the spec: scalar multiplication by a rational distance,
exact on the integral scalars the scenarios use (fractional results are
floored componentwise). -/
def zsmul (q : Rat) (v : ZV) : ZV :=
  (Int.fdiv (q.num * v.1) q.den,
   Int.fdiv (q.num * v.2.1) q.den,
   Int.fdiv (q.num * v.2.2) q.den)

/-- Modelled from the spec: normalization (`Vector.unit`), exact on
integer vectors whose norm is a whole number dividing every component
(all unit and axis vectors of the scenarios). -/
def zunit (v : ZV) : ZV :=
  let n : Int := (Nat.sqrt (zdot v v).toNat : Nat)
  if n ≠ 0 ∧ n * n = zdot v v
      ∧ v.1 % n = 0 ∧ v.2.1 % n = 0 ∧ v.2.2 % n = 0 then
    (v.1 / n, v.2.1 / n, v.2.2 / n)
  else v

/-- Modelled from the spec: rounding to integer cell coordinates
(`Vector.round`) — the identity on already-integral coordinates. -/
def zrnd (v : ZV) : ZV := v

/-- Modelled from the spec: cosine of an angle of degrees as an integer,
exact on the whole quarter-turn multiples the scenarios use. -/
def cosdZ (θ : Rat) : Int :=
  if θ.den = 1 then
    match (θ.num % 360 + 360) % 360 with
    | 0 => 1
    | 90 => 0
    | 180 => -1
    | 270 => 0
    | _ => 1
  else 1

/-- Modelled from the spec: sine of an angle of degrees as an integer,
exact on the whole quarter-turn multiples the scenarios use. -/
def sindZ (θ : Rat) : Int :=
  if θ.den = 1 then
    match (θ.num % 360 + 360) % 360 with
    | 0 => 0
    | 90 => 1
    | 180 => 0
    | 270 => -1
    | _ => 0
  else 0

/-- Modelled from the spec: rotation of `v` about axis `k` by `θ` degrees
(Rodrigues' formula over the exact quarter-turn trigonometry above). -/
def zrotate (v : ZV) (θ : Rat) (k : ZV) : ZV :=
  zadd (zadd (zsmulInt (cosdZ θ) v) (zsmulInt (sindZ θ) (zcross k v)))
    (zsmulInt (zdot k v * (1 - cosdZ θ)) k)

/-- Modelled from the spec: the inclusive sequence of integer cell
coordinates on the straight path between two cells, sampling the segment
at unit steps along its dominant axis and rounding each coordinate. -/
def zline (a b : ZV) : List ZV :=
  let d := zsub b a
  let n : Nat := max (max d.1.natAbs d.2.1.natAbs) d.2.2.natAbs
  if n = 0 then [a]
  else (List.range (n + 1)).map (fun i =>
    (a.1 + Int.fdiv (2 * (i : Int) * d.1 + (n : Int)) (2 * (n : Int)),
     a.2.1 + Int.fdiv (2 * (i : Int) * d.2.1 + (n : Int)) (2 * (n : Int)),
     a.2.2 + Int.fdiv (2 * (i : Int) * d.2.2 + (n : Int)) (2 * (n : Int))))

/-- The concrete geometry over integer triples used by the scenario
developments. -/
def geoZ : Geo ZV :=
  { o := (0, 0, 0)
    x := (1, 0, 0)
    y := (0, 1, 0)
    z := (0, 0, 1)
    add := zadd
    sub := zsub
    smul := zsmul
    cross := zcross
    unit := zunit
    rnd := zrnd
    rotate := zrotate
    line := zline }

/-- The all-air screen system of the scenarios. -/
def sysZ0 : Sys ZV Block :=
  { remote := fun _ => airBlock
    cache := []
    batch := none
    flushes := []
    fetches := []
    sets := 0 }

/-- Witness for C6: the freshly initialized turtle satisfies the
sentinel invariant. -/
theorem C6_sentinel_invariant_witness :
    (∃ e, (turtleInit geoZ (0, 0, 0) sysZ0).history.getLast? = some e
       ∧ e.action = Action.home)
    ∧ ∀ p : PubOp ZV,
        (applyPub geoZ p (turtleInit geoZ (0, 0, 0) sysZ0)).history.getLast?
          = (turtleInit geoZ (0, 0, 0) sysZ0).history.getLast? :=
  C6_sentinel_invariant geoZ (turtleInit geoZ (0, 0, 0) sysZ0)
    (Reach.init (0, 0, 0) sysZ0)

/-- The C8 scenario, `penup(); forward(3); pendown(); forward(2)` from a
fresh turtle at the origin (heading `+Z`, pen initially down). -/
def scn0 : Turtle ZV := turtleInit geoZ (0, 0, 0) sysZ0

/-- Scenario after `penup()`. -/
def scn1 : Turtle ZV := applyOp geoZ .penup scn0

/-- Scenario after `penup(); forward(3)`. -/
def scn2 : Turtle ZV := applyOp geoZ (.forward 3) scn1

/-- Scenario after `penup(); forward(3); pendown()`. -/
def scn3 : Turtle ZV := applyOp geoZ .pendown scn2

/-- Scenario after `penup(); forward(3); pendown(); forward(2)`. -/
def scn4 : Turtle ZV := applyOp geoZ (.forward 2) scn3

/-- The pairs flushed to the remote store by a stage, given the previous
stage's flush trace. -/
def newFlushed (pre post : List (List (ZV × Block))) : List (ZV × Block) :=
  (post.drop pre.length).foldr (· ++ ·) []

/-- The cells to which a flushed pair list writes a given block value. -/
def writesOf (l : List (ZV × Block)) (b : Block) : List ZV :=
  (l.filter (fun p => p.2 == b)).map (·.1)

/-- Claim C8: in the scenario `penup(); forward(3); pendown(); forward(2)`
from a fresh turtle at the origin, the pen-up forward flushes no
pen-block cell (it writes no line cells), and the pen-down forward of
distance 2 changes exactly the two cells `(0,0,4)` and `(0,0,5)` to the
pen block — 2 cells, not 5 — both on the inclusive straight path between
the last position `(0,0,3)` and the new position `(0,0,5)`, whose first
cell already held the pen block before the move; no error is raised. -/
theorem C8_pen_scenario :
    scn2.state.position = ((0 : Int), (0 : Int), (3 : Int))
    ∧ scn4.state.position = ((0 : Int), (0 : Int), (5 : Int))
    ∧ writesOf (newFlushed scn1.sys.flushes scn2.sys.flushes) stoneBlock = []
    ∧ writesOf (newFlushed scn3.sys.flushes scn4.sys.flushes) stoneBlock
        = [((0 : Int), (0 : Int), (4 : Int)), ((0 : Int), (0 : Int), (5 : Int))]
    ∧ geoZ.line ((0 : Int), (0 : Int), (3 : Int)) ((0 : Int), (0 : Int), (5 : Int))
        = [((0 : Int), (0 : Int), (3 : Int)), ((0 : Int), (0 : Int), (4 : Int)),
           ((0 : Int), (0 : Int), (5 : Int))]
    ∧ scn3.sys.remote ((0 : Int), (0 : Int), (3 : Int)) = stoneBlock
    ∧ scn3.sys.remote ((0 : Int), (0 : Int), (4 : Int)) ≠ stoneBlock
    ∧ scn3.sys.remote ((0 : Int), (0 : Int), (5 : Int)) ≠ stoneBlock
    ∧ scn4.sys.remote ((0 : Int), (0 : Int), (4 : Int)) = stoneBlock
    ∧ scn4.sys.remote ((0 : Int), (0 : Int), (5 : Int)) = stoneBlock
    ∧ scn4.err = none := by
  refine ⟨?_, ?_, ?_, ?_, ?_, ?_, ?_, ?_, ?_, ?_, ?_⟩ <;> decide

end ScenarioGeo

section BatchPhase

variable {V : Type} [DecidableEq V]

theorem coh_transfer {B : Type} [DecidableEq V] {s s' : Sys V B}
    (hc : s'.cache = s.cache) (hr : s'.remote = s.remote) (h : Coh s) : Coh s' := by
  intro v b hv
  rw [hc] at hv
  rw [hr]
  exact h v b hv

theorem opElim_self (o : Option CErr) : o.elim none some = o := by
  cases o <;> rfl

theorem mem_aupdate {B : Type} (a l : List (V × B)) (p : V × B)
    (hp : p ∈ aupdate a l) : p ∈ a ∨ p.1 ∈ akeys l := by
  induction l generalizing a with
  | nil => exact Or.inl hp
  | cons q rest ih =>
    rcases ih (aset a q.1 q.2) hp with h | h
    · rcases mem_aset _ _ _ _ h with rfl | h2
      · exact Or.inr (by simp [akeys])
      · exact Or.inl h2
    · exact Or.inr (by simp [akeys]; exact Or.inr (by simpa [akeys] using h))

theorem alookup_aupdate_nil {B : Type} (l : List (V × B))
    (h : (akeys l).Nodup) (v : V) :
    alookup (aupdate [] l) v = alookup l v := by
  rw [alookup_aupdate, lwins_eq_alookup l h]
  cases alookup l v <;> rfl

/-- Specification of `__getitem__` as used during a turtle operation —
on a coherent system every overlay key is cached, the state reachable
because `_commit` always reads the affected cells (caching them) before
drawing them into the overlay: nothing but the shared cache (which only
grows, coherently) changes, the read raises nothing, and the returned
mapping is the overlay over the ground truth. -/
theorem cacheGet_spec {B : Type} [DecidableEq B] (s : Sys V B) (ps : List V)
    (hcoh : Coh s)
    (hovc : ∀ v, (alookup (overlayOf s) v).isSome = true
      → (alookup s.cache v).isSome = true) :
    (cacheGet s ps).1.remote = s.remote
    ∧ (cacheGet s ps).1.flushes = s.flushes
    ∧ (cacheGet s ps).1.batch = s.batch
    ∧ (∀ v, (alookup s.cache v).isSome → (alookup (cacheGet s ps).1.cache v).isSome)
    ∧ Coh (cacheGet s ps).1
    ∧ (cacheGet s ps).2 = Except.ok (ps.map (fun v =>
        (v, (alookup (overlayOf s) v).getD (s.remote v))))
    ∧ (∀ v ∈ ps, (alookup (cacheGet s ps).1.cache v).isSome = true) := by
  have hnodup : (unknownOf s ps).Nodup := (ps.nodup_dedup).filter _
  have hknodup : (akeys ((unknownOf s ps).map (fun w => (w, s.remote w)))).Nodup := by
    rw [akeys_map_self]
    exact hnodup
  have hc' : (cacheGet s ps).1.cache
      = aupdate s.cache ((unknownOf s ps).map (fun w => (w, s.remote w))) := rfl
  have hcacheA : ∀ v, alookup
      (aupdate s.cache ((unknownOf s ps).map (fun w => (w, s.remote w)))) v
      = if v ∈ unknownOf s ps then some (s.remote v) else alookup s.cache v := by
    intro v
    rw [alookup_aupdate, lwins_eq_alookup _ hknodup,
      alookup_map_self _ _ hnodup]
    by_cases hv : v ∈ unknownOf s ps <;> simp [hv]
  have hcache : ∀ v, alookup (cacheGet s ps).1.cache v
      = if v ∈ unknownOf s ps then some (s.remote v) else alookup s.cache v := by
    intro v
    rw [hc']
    exact hcacheA v
  have hmono : ∀ v, (alookup s.cache v).isSome
      → (alookup (cacheGet s ps).1.cache v).isSome := by
    intro v hv
    rw [hcache v]
    by_cases hm : v ∈ unknownOf s ps <;> simp [hm, hv]
  have hval : ∀ v ∈ ps, alookup (cacheGet s ps).1.cache v = some (s.remote v) := by
    intro v hv
    rw [hcache v]
    by_cases hm : v ∈ unknownOf s ps
    · rw [if_pos hm]
    · rw [if_neg hm]
      have hsome : (alookup s.cache v).isSome = true := by
        by_cases hcv : (alookup s.cache v).isSome = true
        · exact hcv
        · cases hov : alookup (overlayOf s) v with
          | some b => exact hovc v (by simp [hov])
          | none =>
            have hmem : v ∈ unknownOf s ps := by
              simp [unknownOf, List.mem_filter, List.mem_dedup, hv]
              constructor
              · simpa [Option.isNone_iff_eq_none,
                  Option.not_isSome_iff_eq_none] using hcv
              · simpa [Option.isNone_iff_eq_none] using hov
            exact absurd hmem hm
      obtain ⟨c, hc⟩ := Option.isSome_iff_exists.mp hsome
      rw [hc, hcoh v c hc]
  refine ⟨rfl, rfl, rfl, hmono, ?_, ?_, ?_⟩
  · intro v b hv
    rw [hcache v] at hv
    by_cases hm : v ∈ unknownOf s ps
    · rw [if_pos hm] at hv
      exact Option.some.inj hv
    · rw [if_neg hm] at hv
      exact hcoh v b hv
  · show readback
        (aupdate s.cache ((unknownOf s ps).map (fun w => (w, s.remote w))))
        (overlayOf s) ps = _
    exact readback_ok _ _ s.remote ps (fun v hv => hval v hv)
  · intro v hv
    rw [hval v hv]
    rfl

end BatchPhase

section UndoMachine

variable {V : Type} [DecidableEq V]

theorem alookup_isSome_of_mem {B : Type} (m : List (V × B)) (v : V)
    (h : v ∈ akeys m) : (alookup m v).isSome = true := by
  induction m with
  | nil => simp [akeys] at h
  | cons p rest ih =>
    by_cases hp : p.1 = v
    · simp [alookup, hp]
    · rw [alookup, if_neg hp]
      rcases (by simpa [akeys] using h : v = p.1 ∨ v ∈ akeys rest) with h1 | h1
      · exact absurd h1.symm hp
      · exact ih h1

theorem alookup_isSome_iff {B : Type} [DecidableEq B] (m : List (V × B)) (v : V) :
    (alookup m v).isSome = true ↔ v ∈ akeys m := by
  constructor
  · intro h
    obtain ⟨b, hb⟩ := Option.isSome_iff_exists.mp h
    exact mem_akeys_of_alookup hb
  · exact alookup_isSome_of_mem m v

theorem alookup_aupdate_left {B : Type} (a l : List (V × B))
    (h : (akeys l).Nodup) (v : V) :
    alookup (aupdate a l) v = (alookup l v).elim (alookup a v) some := by
  rw [alookup_aupdate, lwins_eq_alookup l h]

theorem mem_akeys_aupdate {B : Type} (a l : List (V × B)) (v : V)
    (hv : v ∈ akeys (aupdate a l)) : v ∈ akeys a ∨ v ∈ akeys l := by
  rcases List.mem_map.mp hv with ⟨p, hp, rfl⟩
  rcases mem_aupdate a l p hp with h | h
  · exact Or.inl (List.mem_map.mpr ⟨p, h, rfl⟩)
  · exact Or.inr h

/-- A `__setitem__` with an open batch only updates the thread-local
overlay (and the call counter); nothing is fetched, flushed or merged. -/
theorem cacheSet_inBatch {B : Type} [DecidableEq B] (s : Sys V B)
    (ps : List V) (bs : List B) (n : Nat) (ov : List (V × B))
    (hb : s.batch = some (n, ov)) :
    cacheSet true s ps bs
      = ({ s with sets := s.sets + 1, batch := some (n, aupdate ov (ps.zip bs)) },
         none) := by
  simp [cacheSet, hb]

/-- `TurtleScreen.draw` with an open batch: the drawn map lands in the
overlay. -/
theorem tDraw_inBatch (t : Turtle V) (m : List (V × Block)) (n : Nat)
    (ov : List (V × Block))
    (hb : t.sys.batch = some (n, ov)) (he : t.err = none) :
    tDraw t m = { t with
      sys := { t.sys with sets := t.sys.sets + 1, batch := some (n, aupdate ov m) },
      err := none } := by
  have hset : cacheSet true t.sys (akeys m) (avals m)
      = ({ t.sys with sets := t.sys.sets + 1, batch := some (n, aupdate ov m) },
         none) := by
    rw [cacheSet_inBatch t.sys (akeys m) (avals m) n ov hb, zip_akeys_avals]
  show { t with
      sys := (cacheSet true t.sys (akeys m) (avals m)).1,
      err := (t.err.elim (cacheSet true t.sys (akeys m) (avals m)).2 some) } = _
  rw [hset, he]
  rfl

/-- Opening the screen batch from outside any batch. -/
theorem tEnter_none (t : Turtle V) (hb : t.sys.batch = none) :
    tEnter t = { t with sys := { t.sys with batch := some (1, []) } } := by
  simp [tEnter, cacheEnter, hb]

/-- Re-entering the screen batch. -/
theorem tEnter_some (t : Turtle V) (n : Nat) (ov : List (V × Block))
    (hb : t.sys.batch = some (n, ov)) :
    tEnter t = { t with sys := { t.sys with batch := some (n + 1, ov) } } := by
  simp [tEnter, cacheEnter, hb]

/-- Exiting an inner batch scope only decrements the level. -/
theorem tExit_dec (t : Turtle V) (n : Nat) (ov : List (V × Block))
    (hb : t.sys.batch = some (n, ov)) (hn : n ≠ 1) (he : t.err = none) :
    tExit t = { t with
      sys := { t.sys with batch := some (n - 1, ov) },
      err := none } := by
  have hexit : cacheExit true false t.sys
      = ({ t.sys with batch := some (n - 1, ov) }, none) := by
    simp [cacheExit, hb, hn]
  show { t with
      sys := (cacheExit true false t.sys).1,
      err := (t.err.elim (cacheExit true false t.sys).2 some) } = _
  rw [hexit, he]
  rfl

/-- The outermost successful batch exit: the whole overlay (unique keys,
every key cached) is flushed through `__setitem__`; the remote store
afterwards is the overlay over its old value, no error is raised, and
the shared cache only grows, coherently. -/
theorem tExit_flush (t : Turtle V) (ov : List (V × Block)) (R : V → Block)
    (hR : t.sys.remote = R)
    (hb : t.sys.batch = some (1, ov)) (he : t.err = none)
    (hnd : (akeys ov).Nodup) (hcoh : Coh t.sys)
    (hkeys : ∀ p ∈ ov, (alookup t.sys.cache p.1).isSome = true) :
    (tExit t).state = t.state
    ∧ (tExit t).lastPosition = t.lastPosition
    ∧ (tExit t).history = t.history
    ∧ (tExit t).err = none
    ∧ (∀ v, (tExit t).sys.remote v = ovw R ov v)
    ∧ (tExit t).sys.batch = none
    ∧ Coh (tExit t).sys
    ∧ (∀ v, (alookup t.sys.cache v).isSome = true
        → (alookup (tExit t).sys.cache v).isSome = true) := by
  subst hR
  have hexit : cacheExit true false t.sys
      = cacheSet true ({ t.sys with batch := none }) (akeys ov) (avals ov) := by
    simp [cacheExit, hb]
  have hflush := cacheSet_flush ({ t.sys with batch := none }) ov rfl hnd
    (coh_transfer rfl rfl hcoh) hkeys
  obtain ⟨herr2, hrem2, hcache2, -, hbat2, hcoh2, -, -⟩ := hflush
  have hres : tExit t
      = { t with sys := (cacheSet true ({ t.sys with batch := none })
            (akeys ov) (avals ov)).1, err := none } := by
    show { t with
        sys := (cacheExit true false t.sys).1,
        err := (t.err.elim (cacheExit true false t.sys).2 some) } = _
    rw [hexit, he, herr2]
    rfl
  rw [hres]
  refine ⟨rfl, rfl, rfl, rfl, hrem2, hbat2, hcoh2, ?_⟩
  intro v hv
  rw [hcache2 v]
  cases hm : alookup ov v with
  | none => exact hv
  | some b => rfl

/-- `Turtle._commit` inside an open batch whose overlay keys are all
cached: the read raises nothing, the pushed history entry's reverse diff
holds, for each affected key, the overlay value when the key has one,
else the ground truth; the drawn map lands in the overlay; the remote
store and the flush trace do not move; the shared cache only grows,
coherently, and afterwards covers every affected key. -/
theorem commit_inBatch (t : Turtle V) (m : List (V × Block)) (a : Action)
    (n : Nat) (ov : List (V × Block)) (R : V → Block)
    (hR : t.sys.remote = R)
    (hb : t.sys.batch = some (n, ov)) (he : t.err = none) (hcoh : Coh t.sys)
    (hovk : ∀ v, (alookup ov v).isSome = true
      → (alookup t.sys.cache v).isSome = true) :
    ∃ s' : Sys V Block,
      commit t m a = { t with
          sys := s',
          history := { t.state with
            changed := (akeys m).map
              (fun v => (v, (alookup ov v).getD (R v))),
            action := a } :: t.history,
          err := none }
      ∧ s'.remote = R
      ∧ s'.flushes = t.sys.flushes
      ∧ s'.batch = some (n, aupdate ov m)
      ∧ Coh s'
      ∧ (∀ v, (alookup t.sys.cache v).isSome = true
          → (alookup s'.cache v).isSome = true)
      ∧ (∀ v ∈ akeys m, (alookup s'.cache v).isSome = true) := by
  subst hR
  have hov : overlayOf t.sys = ov := by simp [overlayOf, hb]
  obtain ⟨hrem, hfl, hbat, hmono, hcoh', hread, hcov⟩ :=
    cacheGet_spec t.sys (akeys m) hcoh (by
      intro v hv
      rw [hov] at hv
      exact hovk v hv)
  rw [hov] at hread
  have hcomm := commit_ok t m a
    ((akeys m).map (fun v => (v, (alookup ov v).getD (t.sys.remote v)))) hread
  by_cases hme : m.isEmpty
  · have hmnil : m = [] := List.isEmpty_iff.mp hme
    subst hmnil
    refine ⟨(cacheGet t.sys (akeys ([] : List (V × Block)))).1, ?_, hrem, hfl,
      by rw [hbat, hb]; rfl, hcoh', hmono, by intro v hv; simp [akeys] at hv⟩
    rw [hcomm, if_pos hme, ← he]
  · have hbat' : ({ t with
        sys := (cacheGet t.sys (akeys m)).1,
        history := { t.state with
          changed := (akeys m).map
            (fun v => (v, (alookup ov v).getD (t.sys.remote v))),
          action := a } :: t.history } : Turtle V).sys.batch = some (n, ov) := by
      show (cacheGet t.sys (akeys m)).1.batch = some (n, ov)
      rw [hbat, hb]
    have hdraw := tDraw_inBatch ({ t with
        sys := (cacheGet t.sys (akeys m)).1,
        history := { t.state with
          changed := (akeys m).map
            (fun v => (v, (alookup ov v).getD (t.sys.remote v))),
          action := a } :: t.history } : Turtle V) m n ov hbat' he
    refine ⟨{ (cacheGet t.sys (akeys m)).1 with
        sets := (cacheGet t.sys (akeys m)).1.sets + 1,
        batch := some (n, aupdate ov m) }, ?_, hrem, hfl, rfl,
      coh_transfer rfl rfl hcoh', hmono, hcov⟩
    rw [hcomm, if_neg hme, hdraw]

/-- The overlay accumulated by drawing the reverse diffs of a run of
history entries. -/
def ovDraws (ov : List (V × Block)) (ts : List (TState V)) : List (V × Block) :=
  ts.foldl (fun acc e => aupdate acc e.changed) ov

theorem mem_akeys_ovDraws (ts : List (TState V)) :
    ∀ (ov : List (V × Block)) (v : V), v ∈ akeys (ovDraws ov ts) →
      v ∈ akeys ov ∨ ∃ e ∈ ts, v ∈ akeys e.changed := by
  induction ts with
  | nil => intro ov v hv; exact Or.inl hv
  | cons e rest ih =>
    intro ov v hv
    rcases ih (aupdate ov e.changed) v hv with h | h
    · rcases mem_akeys_aupdate _ _ _ h with h1 | h1
      · exact Or.inl h1
      · exact Or.inr ⟨e, List.mem_cons_self _ _, h1⟩
    · obtain ⟨f, hf, hfv⟩ := h
      exact Or.inr ⟨f, List.mem_cons_of_mem _ hf, hfv⟩

theorem nodup_akeys_ovDraws (ts : List (TState V)) :
    ∀ (ov : List (V × Block)), (akeys ov).Nodup →
      (akeys (ovDraws ov ts)).Nodup := by
  induction ts with
  | nil => intro ov h; exact h
  | cons e rest ih =>
    intro ov h
    exact ih _ (nodup_akeys_aupdate _ _ h)

/-- The `_undraw_turtle` popping loop on a history that starts with a run
of `turtle` entries: each one is popped and its reverse diff drawn into
the overlay; the loop stops at the first non-`turtle` entry (or the
empty history). -/
theorem undrawLoop_spec (ts : List (TState V)) :
    ∀ (s : Sys V Block) (tail : List (TState V)) (n : Nat)
      (ov : List (V × Block)),
    (∀ e ∈ ts, e.action = .turtle) →
    (tail = [] ∨ ∃ M rest, tail = M :: rest ∧ M.action ≠ .turtle) →
    s.batch = some (n, ov) →
    undrawLoop s none (ts ++ tail)
      = ({ s with sets := s.sets + ts.length, batch := some (n, ovDraws ov ts) },
         none, tail) := by
  induction ts with
  | nil =>
    intro s tail n ov _ htail hb
    have hself : ({ s with
        sets := s.sets + ([] : List (TState V)).length,
        batch := some (n, ovDraws ov []) } : Sys V Block) = s := by
      show ({ s with sets := s.sets + 0, batch := some (n, ov) } : Sys V Block) = s
      rw [← hb]
      rfl
    rw [List.nil_append, hself]
    rcases htail with rfl | ⟨M, rest, rfl, hM⟩
    · rfl
    · simp [undrawLoop, hM]
  | cons T ts' ih =>
    intro s tail n ov hts htail hb
    have hT : T.action = .turtle := hts T (List.mem_cons_self _ _)
    have hset : cacheSet true s (akeys T.changed) (avals T.changed)
        = ({ s with sets := s.sets + 1, batch := some (n, aupdate ov T.changed) },
           none) := by
      rw [cacheSet_inBatch s _ _ n ov hb, zip_akeys_avals]
    have hstep : undrawLoop s none ((T :: ts') ++ tail)
        = undrawLoop ({ s with
            sets := s.sets + 1,
            batch := some (n, aupdate ov T.changed) }) none (ts' ++ tail) := by
      simp [undrawLoop, hT, hset]
    rw [hstep]
    rw [ih _ tail n (aupdate ov T.changed)
      (fun e hee => hts e (List.mem_cons_of_mem _ hee)) htail rfl]
    show ({ s with
        sets := s.sets + 1 + ts'.length,
        batch := some (n, ovDraws (aupdate ov T.changed) ts') }, none, tail) = _
    have hlen : s.sets + 1 + ts'.length = s.sets + (T :: ts').length := by
      simp [Nat.add_assoc, Nat.add_comm 1 ts'.length]
    rw [hlen]
    rfl

/-- `Turtle._undraw_turtle` inside an outer batch: pops the leading run
of `turtle` entries, drawing their reverse diffs into the overlay; its
own enter/exit pair leaves the batch level unchanged. -/
theorem undrawTurtle_spec (t : Turtle V) (ts tail : List (TState V))
    (n : Nat) (ov : List (V × Block))
    (hts : ∀ e ∈ ts, e.action = .turtle)
    (htail : tail = [] ∨ ∃ M rest, tail = M :: rest ∧ M.action ≠ .turtle)
    (hh : t.history = ts ++ tail)
    (hb : t.sys.batch = some (n, ov)) (hn : n ≠ 0) (he : t.err = none) :
    undrawTurtle t = { t with
      sys := { t.sys with
        sets := t.sys.sets + ts.length,
        batch := some (n, ovDraws ov ts) },
      history := tail, err := none } := by
  have h1 : tEnter t = { t with sys := { t.sys with batch := some (n + 1, ov) } } :=
    tEnter_some t n ov hb
  have hloop := undrawLoop_spec ts ({ t.sys with batch := some (n + 1, ov) })
    tail (n + 1) ov hts htail rfl
  have h2 : undrawPop (tEnter t) = { t with
      sys := { t.sys with
        sets := t.sys.sets + ts.length,
        batch := some (n + 1, ovDraws ov ts) },
      err := none, history := tail } := by
    rw [h1]
    show { t with
        sys := (undrawLoop ({ t.sys with batch := some (n + 1, ov) }) t.err
          t.history).1,
        err := (undrawLoop ({ t.sys with batch := some (n + 1, ov) }) t.err
          t.history).2.1,
        history := (undrawLoop ({ t.sys with batch := some (n + 1, ov) }) t.err
          t.history).2.2 } = _
    rw [he, hh, hloop]
  rw [undrawTurtle, h2]
  have hn1 : n + 1 ≠ 1 := by omega
  rw [tExit_dec _ (n + 1) (ovDraws ov ts) rfl hn1 rfl]
  show ({ t with
      sys := { t.sys with
        sets := t.sys.sets + ts.length,
        batch := some (n + 1 - 1, ovDraws ov ts) },
      history := tail, err := none } : Turtle V) = _
  have : n + 1 - 1 = n := by omega
  rw [this]

/-- The pop-and-restore step of `Turtle.undo` when the top entry is not
the `home` sentinel: pop it, draw its reverse diff, restore the snapshot
below and its position. -/
theorem undoPopAux_cons (t : Turtle V) (M₁ M : TState V)
    (rest : List (TState V)) (hM₁ : M₁.action ≠ .home)
    (n : Nat) (ov : List (V × Block))
    (hb : t.sys.batch = some (n, ov)) (he : t.err = none) :
    undoPopAux t (M₁ :: M :: rest)
      = { t with
          sys := { t.sys with
            sets := t.sys.sets + 1,
            batch := some (n, aupdate ov M₁.changed) },
          err := none, history := M :: rest,
          state := M, lastPosition := M.position } := by
  have hdraw := tDraw_inBatch ({ t with history := M :: rest } : Turtle V)
    M₁.changed n ov hb he
  rw [undoPopAux, if_pos hM₁, hdraw]

/-- The pop step of `Turtle.undo` on a history holding only the `home`
sentinel: a defined no-op. -/
theorem undoPop_sentinel (t : Turtle V) (e₀ : TState V)
    (hh : t.history = [e₀]) (h0 : e₀.action = .home) :
    undoPop t = t := by
  rw [undoPop, hh, undoPopAux, if_neg (by simp [h0])]

theorem markerMap_nodup (g : Geo V) (st : TState V) :
    (akeys (markerMap g st)).Nodup := by
  by_cases hp : st.pendown = true
  · simp only [markerMap, hp, if_true]
    exact nodup_akeys_aset _ _ _ (nodup_akeys_aset _ _ _
      (nodup_akeys_aset _ _ _ (nodup_akeys_aset _ _ _ List.nodup_nil)))
  · simp only [markerMap, hp, if_false]
    exact nodup_akeys_aset _ _ _
      (nodup_akeys_aset _ _ _ (nodup_akeys_aset _ _ _ List.nodup_nil))

/-- The marker cells depend only on the user-visible snapshot fields. -/
theorem markerMap_eqvis (g : Geo V) (a b : TState V) (h : eqvis a b) :
    markerMap g a = markerMap g b := by
  obtain ⟨h1, h2, h3, h4, h5, h6, h7⟩ := h
  simp only [markerMap, drawVectors, h1, h2, h3, h5, h6]

/-- The reverse diffs an operation records undo it exactly.  `R` is the
remote valuation before the operation; its batch draws the old marker's
reverse diff `TC` (when the old visibility `a` holds), the pen line `L`,
and the new marker `MM'` (when the new visibility `b` holds), giving the
overlay `ov₃`; its commits record the reverse diffs `M₁c` (of `L`,
below `ov₁`) and `T₁c` (of `MM'`, below `ov₂`).  The undo's overlay
`w₃` — `T₁c` drawn back, then `M₁c`, then the old marker `MM` redrawn —
applied over the flushed valuation restores `R` everywhere. -/
theorem overlay_roundtrip (R : V → Block) (TC L MM' MM : List (V × Block))
    (a b : Bool)
    (ov₁ ov₂ ov₃ T₁c M₁c w₁ w₂ w₃ : List (V × Block))
    (hL : (akeys L).Nodup)
    (hM' : b = true → (akeys MM').Nodup)
    (hvis : a = true → (akeys TC).Nodup ∧ (akeys MM).Nodup
        ∧ (∀ w, w ∈ akeys TC ↔ w ∈ akeys MM)
        ∧ (∀ p ∈ MM, R p.1 = p.2))
    (h1 : ov₁ = if a then aupdate [] TC else [])
    (h2 : ov₂ = aupdate ov₁ L)
    (h3 : ov₃ = if b then aupdate ov₂ MM' else ov₂)
    (h4 : T₁c = (akeys MM').map (fun w => (w, (alookup ov₂ w).getD (R w))))
    (h5 : M₁c = (akeys L).map (fun w => (w, (alookup ov₁ w).getD (R w))))
    (h6 : w₁ = if b then aupdate [] T₁c else [])
    (h7 : w₂ = aupdate w₁ M₁c)
    (h8 : w₃ = if a then aupdate w₂ MM else w₂)
    (v : V) :
    (alookup w₃ v).getD (ovw R ov₃ v) = R v := by
  have hM₁nd : (akeys M₁c).Nodup := by
    rw [h5, akeys_map_self]
    exact hL
  by_cases hA : a = true ∧ v ∈ akeys MM
  · obtain ⟨ha, hvMM⟩ := hA
    obtain ⟨hTCnd, hMMnd, hkeys, hmark⟩ := hvis ha
    obtain ⟨c, hc⟩ := Option.isSome_iff_exists.mp (alookup_isSome_of_mem MM v hvMM)
    have hRc : R v = c := hmark (v, c) (alookup_mem _ _ _ hc)
    have hw3 : alookup w₃ v = some c := by
      rw [h8, if_pos ha, alookup_aupdate_left _ _ hMMnd, hc]
      rfl
    rw [hw3]
    exact hRc.symm
  · push_neg at hA
    have ho1 : alookup ov₁ v = none := by
      rw [h1]
      by_cases ha : a = true
      · rw [if_pos ha]
        obtain ⟨hTCnd, hMMnd, hkeys, hmark⟩ := hvis ha
        rw [alookup_aupdate_nil TC hTCnd]
        exact alookup_eq_none TC v (fun hm => hA ha ((hkeys v).mp hm))
      · rw [if_neg ha]
        rfl
    have hq3 : alookup w₃ v = alookup w₂ v := by
      rw [h8]
      by_cases ha : a = true
      · rw [if_pos ha]
        obtain ⟨hTCnd, hMMnd, hkeys, hmark⟩ := hvis ha
        rw [alookup_aupdate_left _ _ hMMnd, alookup_eq_none MM v (hA ha)]
        rfl
      · rw [if_neg ha]
    by_cases hvL : v ∈ akeys L
    · have hm1 : alookup M₁c v = some (R v) := by
        rw [h5, alookup_map_self _ _ hL, if_pos hvL, ho1]
        rfl
      have hq2 : alookup w₂ v = some (R v) := by
        rw [h7, alookup_aupdate_left _ _ hM₁nd, hm1]
        rfl
      rw [hq3, hq2]
      rfl
    · have hl : alookup L v = none := alookup_eq_none L v hvL
      have hm1 : alookup M₁c v = none := by
        rw [h5, alookup_map_self _ _ hL, if_neg hvL]
      have ho2 : alookup ov₂ v = none := by
        rw [h2, alookup_aupdate_left _ _ hL, hl]
        exact ho1
      have hq2 : alookup w₂ v = alookup w₁ v := by
        rw [h7, alookup_aupdate_left _ _ hM₁nd, hm1]
        rfl
      by_cases hB : b = true ∧ v ∈ akeys MM'
      · obtain ⟨hbv, hvM'⟩ := hB
        have hT₁nd : (akeys T₁c).Nodup := by
          rw [h4, akeys_map_self]
          exact hM' hbv
        have ht1 : alookup T₁c v = some (R v) := by
          rw [h4, alookup_map_self _ _ (hM' hbv), if_pos hvM', ho2]
          rfl
        have hq1 : alookup w₁ v = some (R v) := by
          rw [h6, if_pos hbv, alookup_aupdate_nil T₁c hT₁nd, ht1]
        rw [hq3, hq2, hq1]
        rfl
      · have hq1 : alookup w₁ v = none := by
          rw [h6]
          by_cases hbv : b = true
          · rw [if_pos hbv]
            have hT₁nd : (akeys T₁c).Nodup := by
              rw [h4, akeys_map_self]
              exact hM' hbv
            rw [alookup_aupdate_nil T₁c hT₁nd, h4,
              alookup_map_self _ _ (hM' hbv), if_neg (fun hm => hB ⟨hbv, hm⟩)]
          · rw [if_neg hbv]
            rfl
        have ho3 : alookup ov₃ v = none := by
          rw [h3]
          by_cases hbv : b = true
          · rw [if_pos hbv, alookup_aupdate_left _ _ (hM' hbv),
              alookup_eq_none MM' v (fun hm => hB ⟨hbv, hm⟩)]
            exact ho2
          · rw [if_neg hbv]
            exact ho2
        rw [hq3, hq2, hq1]
        show Option.getD none (ovw R ov₃ v) = R v
        rw [show ovw R ov₃ v = (alookup ov₃ v).getD (R v) from rfl, ho3]
        rfl

/-- The machine well-formedness of a turtle's history against its cache:
every entry's reverse diff has unique keys, all of them present in the
shared cache (they were read through `__getitem__` when the entry was
committed, and the shared cache never shrinks). -/
def histOK (t : Turtle V) : Prop :=
  ∀ e ∈ t.history, (akeys e.changed).Nodup
    ∧ ∀ w ∈ akeys e.changed, (alookup t.sys.cache w).isSome = true

/-- A turtle at rest between public operations: no open batch, no
pending error, coherent shared cache, last committed position equal to
the current one, well-formed history topped — above a non-`turtle`
entry recording the current snapshot — by exactly one `turtle` entry
when the agent is visible (none when hidden) whose reverse diff covers
exactly the marker cells, which the remote store currently shows. -/
def Ready (g : Geo V) (t : Turtle V) : Prop :=
  t.sys.batch = none ∧ t.err = none ∧ Coh t.sys
  ∧ t.lastPosition = t.state.position
  ∧ histOK t
  ∧ ∃ ts T M rest,
      t.history = ts ++ M :: rest
      ∧ M.action ≠ .turtle
      ∧ eqvis M t.state
      ∧ (∀ e ∈ ts, e.action = .turtle)
      ∧ ts = (if t.state.visible = true then [T] else [])
      ∧ (t.state.visible = true →
          (∀ w, w ∈ akeys T.changed ↔ w ∈ akeys (markerMap g t.state))
          ∧ ∀ p ∈ markerMap g t.state, t.sys.remote p.1 = p.2)

/-- The pen-line cell map step (c) of `_update` draws: empty when the pen
is up or the position unchanged. -/
def theLine (g : Geo V) (t : Turtle V) : List (V × Block) :=
  if t.state.pendown ∧ t.state.position ≠ t.lastPosition then
    lineMap g t.lastPosition t.state.position t.state.penblock
  else []

/-- The action tag step (c) of `_update` commits. -/
def theTag (t : Turtle V) : Action :=
  if t.state.pendown ∧ t.state.position ≠ t.lastPosition then .line else .move

theorem lineOrMove_eq (g : Geo V) (t : Turtle V) :
    lineOrMove g t = commit t (theLine g t) (theTag t) := by
  by_cases h : t.state.pendown ∧ t.state.position ≠ t.lastPosition <;>
    simp [lineOrMove, theLine, theTag, h]

theorem theTag_ne_turtle (t : Turtle V) : theTag t ≠ .turtle := by
  rw [theTag]
  by_cases h : t.state.pendown ∧ t.state.position ≠ t.lastPosition <;> simp [h]

theorem theTag_ne_home (t : Turtle V) : theTag t ≠ .home := by
  rw [theTag]
  by_cases h : t.state.pendown ∧ t.state.position ≠ t.lastPosition <;> simp [h]

theorem theLine_nodup (g : Geo V) (t : Turtle V) :
    (akeys (theLine g t)).Nodup := by
  rw [theLine]
  by_cases h : t.state.pendown ∧ t.state.position ≠ t.lastPosition
  · rw [if_pos h, lineMap]
    exact nodup_akeys_aupdate _ _ List.nodup_nil
  · rw [if_neg h]
    exact List.nodup_nil

/-- `Turtle._commit` outside any batch (as in `Turtle.__init__`): the
reverse diff records ground truth, and the drawn map is flushed to the
remote store at once. -/
theorem commit_noBatch (t : Turtle V) (m : List (V × Block)) (a : Action)
    (hb : t.sys.batch = none) (he : t.err = none) (hcoh : Coh t.sys)
    (hnd : (akeys m).Nodup) :
    ∃ s' : Sys V Block,
      commit t m a = { t with
          sys := s',
          history := { t.state with
            changed := (akeys m).map (fun w => (w, t.sys.remote w)),
            action := a } :: t.history,
          err := none }
      ∧ (∀ v, s'.remote v = ovw t.sys.remote m v)
      ∧ s'.batch = none
      ∧ Coh s'
      ∧ (∀ v, (alookup t.sys.cache v).isSome = true
          → (alookup s'.cache v).isSome = true)
      ∧ (∀ v ∈ akeys m, (alookup s'.cache v).isSome = true) := by
  have hov : overlayOf t.sys = [] := by simp [overlayOf, hb]
  obtain ⟨hrem, hfl, hbat, hmono, hcoh', hread, hcov⟩ :=
    cacheGet_spec t.sys (akeys m) hcoh (by
      intro v hv
      rw [hov] at hv
      simp [alookup] at hv)
  rw [hov] at hread
  have hread' : (cacheGet t.sys (akeys m)).2
      = Except.ok ((akeys m).map (fun w => (w, t.sys.remote w))) := by
    rw [hread]
    rfl
  have hcomm := commit_ok t m a
    ((akeys m).map (fun w => (w, t.sys.remote w))) hread'
  by_cases hme : m.isEmpty
  · have hmnil : m = [] := List.isEmpty_iff.mp hme
    subst hmnil
    refine ⟨(cacheGet t.sys (akeys ([] : List (V × Block)))).1, ?_, ?_,
      by rw [hbat, hb], hcoh', hmono, by intro v hv; simp [akeys] at hv⟩
    · rw [hcomm, if_pos hme, ← he]
    · intro v
      rw [hrem]
      simp [ovw, alookup]
  · have hb' : (cacheGet t.sys (akeys m)).1.batch = none := by rw [hbat, hb]
    have hkeys' : ∀ p ∈ m,
        (alookup (cacheGet t.sys (akeys m)).1.cache p.1).isSome = true := by
      intro p hp
      exact hcov p.1 (List.mem_map.mpr ⟨p, hp, rfl⟩)
    obtain ⟨ferr, frem, fcache, -, fbat, fcoh, -, -⟩ :=
      cacheSet_flush (cacheGet t.sys (akeys m)).1 m hb' hnd hcoh' hkeys'
    refine ⟨(cacheSet true (cacheGet t.sys (akeys m)).1 (akeys m) (avals m)).1,
      ?_, ?_, fbat, fcoh, ?_, ?_⟩
    · rw [hcomm, if_neg hme]
      show { t with
          sys := (cacheSet true (cacheGet t.sys (akeys m)).1
            (akeys m) (avals m)).1,
          history := { t.state with
            changed := (akeys m).map (fun w => (w, t.sys.remote w)),
            action := a } :: t.history,
          err := (t.err.elim (cacheSet true (cacheGet t.sys (akeys m)).1
            (akeys m) (avals m)).2 some) } = _
      rw [he, ferr]
      rfl
    · intro v
      rw [frem v, hrem]
    · intro v hv
      rw [fcache v]
      cases hm : alookup m v with
      | none => exact hmono v hv
      | some c => rfl
    · intro v hv
      rw [fcache v]
      obtain ⟨c, hc⟩ := Option.isSome_iff_exists.mp (alookup_isSome_of_mem m v hv)
      rw [hc]
      rfl

theorem turtle_fields_eq (x : Turtle V) (st : TState V) (lp : V)
    (h : List (TState V)) (e : Option CErr)
    (h1 : x.state = st) (h2 : x.lastPosition = lp) (h3 : x.history = h)
    (h4 : x.err = e) :
    x = { state := st, lastPosition := lp, history := h, sys := x.sys,
          err := e } := by
  subst h1
  subst h2
  subst h3
  subst h4
  rfl

/-- Step (d) of `_update` (and of `undo`): when the agent is visible,
`_draw_turtle` commits the marker cells with tag `turtle` inside the
open batch; when hidden, nothing happens. -/
theorem maybeMarker_spec (g : Geo V) (t : Turtle V) (n : Nat)
    (ov : List (V × Block)) (R : V → Block)
    (hR : t.sys.remote = R) (hb : t.sys.batch = some (n, ov)) (he : t.err = none)
    (hcoh : Coh t.sys)
    (hovk : ∀ v, (alookup ov v).isSome = true
      → (alookup t.sys.cache v).isSome = true) :
    ∃ s',
      maybeMarker g t = { t with
          sys := s',
          history := (if t.state.visible = true then
            [{ t.state with
               changed := (akeys (markerMap g t.state)).map
                 (fun w => (w, (alookup ov w).getD (R w))),
               action := Action.turtle }] else []) ++ t.history,
          err := none }
      ∧ s'.remote = R
      ∧ s'.batch = some (n, if t.state.visible = true
          then aupdate ov (markerMap g t.state) else ov)
      ∧ Coh s'
      ∧ (∀ v, (alookup t.sys.cache v).isSome = true
          → (alookup s'.cache v).isSome = true)
      ∧ (t.state.visible = true → ∀ v ∈ akeys (markerMap g t.state),
          (alookup s'.cache v).isSome = true) := by
  by_cases hv : t.state.visible = true
  · obtain ⟨s', h, hrem, hfl, hbat, hcoh', hmono, hcov⟩ :=
      commit_inBatch t (markerMap g t.state) .turtle n ov R hR hb he hcoh hovk
    refine ⟨s', ?_, hrem, ?_, hcoh', hmono, fun _ => hcov⟩
    · rw [show maybeMarker g t = drawTurtle g t from if_pos hv,
        show drawTurtle g t = commit t (markerMap g t.state) .turtle from rfl,
        h, if_pos hv]
      rfl
    · rw [hbat, if_pos hv]
  · refine ⟨t.sys, ?_, hR, ?_, hcoh, fun v hs => hs, fun hvt => absurd hvt hv⟩
    · rw [show maybeMarker g t = t from if_neg hv, if_neg hv]
      show t = { t with history := t.history, err := none }
      rw [← he]
    · rw [if_neg hv, hb]

/-- `Turtle._update` on a well-formed turtle `u` whose history starts
with a run `ts` of `turtle` entries (whose reverse-diff keys are cached)
above a non-`turtle` entry: it pops the run into the batch overlay,
pushes the line-or-move entry and — when visible — a fresh `turtle`
entry whose reverse diffs read through the overlay, records the new
position, and flushes the whole overlay; the shared cache only grows
and ends covering the drawn keys. -/
theorem updateStep_ready (g : Geo V) (u : Turtle V) (ts : List (TState V))
    (M : TState V) (rest : List (TState V))
    (hb : u.sys.batch = none) (he : u.err = none) (hcoh : Coh u.sys)
    (hh : u.history = ts ++ M :: rest)
    (hM : M.action ≠ .turtle)
    (hts : ∀ e ∈ ts, e.action = .turtle)
    (hcts : ∀ e ∈ ts, ∀ w ∈ akeys e.changed,
      (alookup u.sys.cache w).isSome = true) :
    ∃ s',
      updateStep g u = { u with
          sys := s',
          history :=
            (if u.state.visible = true then
              [{ u.state with
                 changed := (akeys (markerMap g u.state)).map (fun w => (w,
                   (alookup (aupdate (ovDraws [] ts) (theLine g u)) w).getD
                     (u.sys.remote w))),
                 action := Action.turtle }]
             else [])
            ++ { u.state with
                 changed := (akeys (theLine g u)).map (fun w => (w,
                   (alookup (ovDraws [] ts) w).getD (u.sys.remote w))),
                 action := theTag u } :: M :: rest,
          lastPosition := u.state.position,
          err := none }
      ∧ (∀ v, s'.remote v = ovw u.sys.remote
          (if u.state.visible = true then
            aupdate (aupdate (ovDraws [] ts) (theLine g u)) (markerMap g u.state)
          else aupdate (ovDraws [] ts) (theLine g u)) v)
      ∧ s'.batch = none
      ∧ Coh s'
      ∧ (∀ v, (alookup u.sys.cache v).isSome = true
          → (alookup s'.cache v).isSome = true)
      ∧ (∀ v ∈ akeys (theLine g u), (alookup s'.cache v).isSome = true)
      ∧ (u.state.visible = true → ∀ v ∈ akeys (markerMap g u.state),
          (alookup s'.cache v).isSome = true) := by
  have hOV1keys : ∀ w ∈ akeys (ovDraws [] ts),
      (alookup u.sys.cache w).isSome = true := by
    intro w hw
    rcases mem_akeys_ovDraws ts [] w hw with h | ⟨e, hee, hwe⟩
    · simp [akeys] at h
    · exact hcts e hee w hwe
  have hOV1nd : (akeys (ovDraws ([] : List (V × Block)) ts)).Nodup :=
    nodup_akeys_ovDraws ts [] List.nodup_nil
  have hOV2nd : (akeys (aupdate (ovDraws [] ts) (theLine g u))).Nodup :=
    nodup_akeys_aupdate _ _ hOV1nd
  have h1 : tEnter u = { u with sys := { u.sys with batch := some (1, []) } } :=
    tEnter_none u hb
  have h2 : undrawTurtle ({ u with
      sys := { u.sys with batch := some (1, []) } } : Turtle V)
      = { u with
          sys := { u.sys with
            sets := u.sys.sets + ts.length,
            batch := some (1, ovDraws [] ts) },
          history := M :: rest, err := none } :=
    undrawTurtle_spec _ ts (M :: rest) 1 [] hts (Or.inr ⟨M, rest, rfl, hM⟩) hh
      rfl (by decide) he
  have h3eq : lineOrMove g ({ u with
      sys := { u.sys with
        sets := u.sys.sets + ts.length,
        batch := some (1, ovDraws [] ts) },
      history := M :: rest, err := none } : Turtle V)
      = commit ({ u with
          sys := { u.sys with
            sets := u.sys.sets + ts.length,
            batch := some (1, ovDraws [] ts) },
          history := M :: rest, err := none } : Turtle V)
        (theLine g u) (theTag u) :=
    lineOrMove_eq g _
  obtain ⟨s₃, h3, h3rem, h3fl, h3bat, h3coh, h3mono, h3cov⟩ :=
    commit_inBatch ({ u with
        sys := { u.sys with
          sets := u.sys.sets + ts.length,
          batch := some (1, ovDraws [] ts) },
        history := M :: rest, err := none } : Turtle V)
      (theLine g u) (theTag u) 1 (ovDraws [] ts) u.sys.remote rfl rfl rfl
      (coh_transfer rfl rfl hcoh)
      (fun v hv => hOV1keys v ((alookup_isSome_iff _ _).mp hv))
  have h3' : commit ({ u with
      sys := { u.sys with
        sets := u.sys.sets + ts.length,
        batch := some (1, ovDraws [] ts) },
      history := M :: rest, err := none } : Turtle V) (theLine g u) (theTag u)
      = { u with
          sys := s₃,
          history := { u.state with
            changed := (akeys (theLine g u)).map (fun w => (w,
              (alookup (ovDraws [] ts) w).getD (u.sys.remote w))),
            action := theTag u } :: M :: rest,
          err := none } := h3
  have hc2 : ∀ w ∈ akeys (aupdate (ovDraws [] ts) (theLine g u)),
      (alookup s₃.cache w).isSome = true := by
    intro w hw
    rcases mem_akeys_aupdate _ _ _ hw with h | h
    · exact h3mono w (hOV1keys w h)
    · exact h3cov w h
  obtain ⟨s₄, h4, h4rem, h4bat, h4coh, h4mono, h4cov⟩ :=
    maybeMarker_spec g ({ u with
        sys := s₃,
        history := { u.state with
          changed := (akeys (theLine g u)).map (fun w => (w,
            (alookup (ovDraws [] ts) w).getD (u.sys.remote w))),
          action := theTag u } :: M :: rest,
        err := none } : Turtle V) 1
      (aupdate (ovDraws [] ts) (theLine g u)) u.sys.remote h3rem h3bat rfl h3coh
      (fun v hv => hc2 v ((alookup_isSome_iff _ _).mp hv))
  have h4' : maybeMarker g ({ u with
      sys := s₃,
      history := { u.state with
        changed := (akeys (theLine g u)).map (fun w => (w,
          (alookup (ovDraws [] ts) w).getD (u.sys.remote w))),
        action := theTag u } :: M :: rest,
      err := none } : Turtle V)
      = { u with
          sys := s₄,
          history :=
            (if u.state.visible = true then
              [{ u.state with
                 changed := (akeys (markerMap g u.state)).map (fun w => (w,
                   (alookup (aupdate (ovDraws [] ts) (theLine g u)) w).getD
                     (u.sys.remote w))),
                 action := Action.turtle }]
             else [])
            ++ { u.state with
                 changed := (akeys (theLine g u)).map (fun w => (w,
                   (alookup (ovDraws [] ts) w).getD (u.sys.remote w))),
                 action := theTag u } :: M :: rest,
          err := none } := h4
  have h5 : setLastPos ({ u with
      sys := s₄,
      history :=
        (if u.state.visible = true then
          [{ u.state with
             changed := (akeys (markerMap g u.state)).map (fun w => (w,
               (alookup (aupdate (ovDraws [] ts) (theLine g u)) w).getD
                 (u.sys.remote w))),
             action := Action.turtle }]
         else [])
        ++ { u.state with
             changed := (akeys (theLine g u)).map (fun w => (w,
               (alookup (ovDraws [] ts) w).getD (u.sys.remote w))),
             action := theTag u } :: M :: rest,
      err := none } : Turtle V)
      = { u with
          sys := s₄,
          history :=
            (if u.state.visible = true then
              [{ u.state with
                 changed := (akeys (markerMap g u.state)).map (fun w => (w,
                   (alookup (aupdate (ovDraws [] ts) (theLine g u)) w).getD
                     (u.sys.remote w))),
                 action := Action.turtle }]
             else [])
            ++ { u.state with
                 changed := (akeys (theLine g u)).map (fun w => (w,
                   (alookup (ovDraws [] ts) w).getD (u.sys.remote w))),
                 action := theTag u } :: M :: rest,
          lastPosition := u.state.position,
          err := none } := rfl
  have hc3 : ∀ w ∈ akeys (if u.state.visible = true then
      aupdate (aupdate (ovDraws [] ts) (theLine g u)) (markerMap g u.state)
      else aupdate (ovDraws [] ts) (theLine g u)),
      (alookup s₄.cache w).isSome = true := by
    intro w hw
    by_cases hv : u.state.visible = true
    · rw [if_pos hv] at hw
      rcases mem_akeys_aupdate _ _ _ hw with h | h
      · exact h4mono w (hc2 w h)
      · exact h4cov hv w h
    · rw [if_neg hv] at hw
      exact h4mono w (hc2 w hw)
  have hOV3nd : (akeys (if u.state.visible = true then
      aupdate (aupdate (ovDraws [] ts) (theLine g u)) (markerMap g u.state)
      else aupdate (ovDraws [] ts) (theLine g u))).Nodup := by
    by_cases hv : u.state.visible = true
    · rw [if_pos hv]
      exact nodup_akeys_aupdate _ _ hOV2nd
    · rw [if_neg hv]
      exact hOV2nd
  obtain ⟨f1, f2, f3, f4, f5, f6, f7, f8⟩ :=
    tExit_flush ({ u with
        sys := s₄,
        history :=
          (if u.state.visible = true then
            [{ u.state with
               changed := (akeys (markerMap g u.state)).map (fun w => (w,
                 (alookup (aupdate (ovDraws [] ts) (theLine g u)) w).getD
                   (u.sys.remote w))),
               action := Action.turtle }]
           else [])
          ++ { u.state with
               changed := (akeys (theLine g u)).map (fun w => (w,
                 (alookup (ovDraws [] ts) w).getD (u.sys.remote w))),
               action := theTag u } :: M :: rest,
        lastPosition := u.state.position,
        err := none } : Turtle V)
      (if u.state.visible = true then
        aupdate (aupdate (ovDraws [] ts) (theLine g u)) (markerMap g u.state)
        else aupdate (ovDraws [] ts) (theLine g u))
      u.sys.remote h4rem h4bat rfl hOV3nd h4coh
      (fun p hp => hc3 p.1 (List.mem_map.mpr ⟨p, hp, rfl⟩))
  refine ⟨(tExit ({ u with
      sys := s₄,
      history :=
        (if u.state.visible = true then
          [{ u.state with
             changed := (akeys (markerMap g u.state)).map (fun w => (w,
               (alookup (aupdate (ovDraws [] ts) (theLine g u)) w).getD
                 (u.sys.remote w))),
             action := Action.turtle }]
         else [])
        ++ { u.state with
             changed := (akeys (theLine g u)).map (fun w => (w,
               (alookup (ovDraws [] ts) w).getD (u.sys.remote w))),
             action := theTag u } :: M :: rest,
      lastPosition := u.state.position,
      err := none } : Turtle V)).sys, ?_, f5, f6, f7, ?_, ?_, ?_⟩
  · have hchain : updateStep g u = tExit ({ u with
        sys := s₄,
        history :=
          (if u.state.visible = true then
            [{ u.state with
               changed := (akeys (markerMap g u.state)).map (fun w => (w,
                 (alookup (aupdate (ovDraws [] ts) (theLine g u)) w).getD
                   (u.sys.remote w))),
               action := Action.turtle }]
           else [])
          ++ { u.state with
               changed := (akeys (theLine g u)).map (fun w => (w,
                 (alookup (ovDraws [] ts) w).getD (u.sys.remote w))),
               action := theTag u } :: M :: rest,
        lastPosition := u.state.position,
        err := none } : Turtle V) := by
      show tExit (setLastPos (maybeMarker g (lineOrMove g (undrawTurtle
        (tEnter u))))) = _
      rw [h1, h2, h3eq, h3', h4', h5]
    rw [hchain]
    exact turtle_fields_eq _ _ _ _ _ f1 f2 f3 f4
  · intro v hv2
    exact f8 v (h4mono v (h3mono v hv2))
  · intro v hvk
    exact f8 v (h4mono v (h3cov v hvk))
  · intro hv v hvk
    exact f8 v (h4cov hv v hvk)

theorem mem_akeys_map_self {B : Type} [DecidableEq B] (l : List V) (f : V → B) (w : V) :
    w ∈ akeys (l.map (fun u => (u, f u))) ↔ w ∈ l := by
  rw [akeys_map_self]

/-- `Turtle.undo` on a turtle whose history is topped by (when the agent
drew itself, `b`) one fresh `turtle` entry above the last operation's
line-or-move entry `M₁` above the snapshot `M` to restore: it pops the
`turtle` entry and `M₁`, drawing their reverse diffs into the batch
overlay, restores `M` and its position, redraws the marker when `M` is
visible, and flushes the overlay without error. -/
theorem undoStep_spec (g : Geo V) (P : Turtle V) (b : Bool) (T₁ M₁ M : TState V)
    (rest : List (TState V)) (R : V → Block)
    (hb : P.sys.batch = none) (he : P.err = none) (hcoh : Coh P.sys)
    (hR : P.sys.remote = R)
    (hh : P.history = (if b = true then [T₁] else []) ++ M₁ :: M :: rest)
    (hT₁ : T₁.action = .turtle)
    (hM₁t : M₁.action ≠ .turtle) (hM₁h : M₁.action ≠ .home)
    (hcT₁ : b = true → ∀ w ∈ akeys T₁.changed,
      (alookup P.sys.cache w).isSome = true)
    (hcM₁ : ∀ w ∈ akeys M₁.changed, (alookup P.sys.cache w).isSome = true) :
    (undoStep g P).state = M
    ∧ (undoStep g P).lastPosition = M.position
    ∧ (undoStep g P).err = none
    ∧ (∀ v, (undoStep g P).sys.remote v = ovw R
        (if M.visible = true then
          aupdate (aupdate (if b = true then aupdate [] T₁.changed else [])
            M₁.changed) (markerMap g M)
        else aupdate (if b = true then aupdate [] T₁.changed else [])
          M₁.changed) v) := by
  have hW1 : ovDraws ([] : List (V × Block)) (if b = true then [T₁] else [])
      = (if b = true then aupdate [] T₁.changed else []) := by
    by_cases hbv : b = true
    · rw [if_pos hbv, if_pos hbv]
      rfl
    · rw [if_neg hbv, if_neg hbv]
      rfl
  have hts2 : ∀ e ∈ (if b = true then [T₁] else []), e.action = .turtle := by
    by_cases hbv : b = true
    · rw [if_pos hbv]
      intro e hee
      rcases List.mem_singleton.mp hee with rfl
      exact hT₁
    · rw [if_neg hbv]
      intro e hee
      cases hee
  have h1 : tEnter P = { P with sys := { P.sys with batch := some (1, []) } } :=
    tEnter_none P hb
  have h2 : undrawTurtle ({ P with
      sys := { P.sys with batch := some (1, []) } } : Turtle V)
      = { P with
          sys := { P.sys with
            sets := P.sys.sets + (if b = true then [T₁] else []).length,
            batch := some (1, ovDraws [] (if b = true then [T₁] else [])) },
          history := M₁ :: M :: rest, err := none } :=
    undrawTurtle_spec _ (if b = true then [T₁] else []) (M₁ :: M :: rest) 1 []
      hts2 (Or.inr ⟨M₁, M :: rest, rfl, hM₁t⟩) hh rfl (by decide) he
  have h3 : undoPop ({ P with
      sys := { P.sys with
        sets := P.sys.sets + (if b = true then [T₁] else []).length,
        batch := some (1, ovDraws [] (if b = true then [T₁] else [])) },
      history := M₁ :: M :: rest, err := none } : Turtle V)
      = { P with
          sys := { P.sys with
            sets := P.sys.sets + (if b = true then [T₁] else []).length + 1,
            batch := some (1, aupdate
              (ovDraws [] (if b = true then [T₁] else [])) M₁.changed) },
          state := M, lastPosition := M.position,
          history := M :: rest, err := none } :=
    undoPopAux_cons _ M₁ M rest hM₁h 1
      (ovDraws [] (if b = true then [T₁] else [])) rfl rfl
  have hcW1 : ∀ w ∈ akeys (ovDraws [] (if b = true then [T₁] else [])),
      (alookup P.sys.cache w).isSome = true := by
    intro w hw
    rcases mem_akeys_ovDraws _ [] w hw with h | ⟨e, hee, hwe⟩
    · simp [akeys] at h
    · by_cases hbv : b = true
      · rw [if_pos hbv] at hee
        rcases List.mem_singleton.mp hee with rfl
        exact hcT₁ hbv w hwe
      · rw [if_neg hbv] at hee
        cases hee
  have hcW2 : ∀ w ∈ akeys (aupdate
      (ovDraws [] (if b = true then [T₁] else [])) M₁.changed),
      (alookup P.sys.cache w).isSome = true := by
    intro w hw
    rcases mem_akeys_aupdate _ _ _ hw with h | h
    · exact hcW1 w h
    · exact hcM₁ w h
  obtain ⟨s₄, h4, h4rem, h4bat, h4coh, h4mono, h4cov⟩ :=
    maybeMarker_spec g ({ P with
        sys := { P.sys with
          sets := P.sys.sets + (if b = true then [T₁] else []).length + 1,
          batch := some (1, aupdate
            (ovDraws [] (if b = true then [T₁] else [])) M₁.changed) },
        state := M, lastPosition := M.position,
        history := M :: rest, err := none } : Turtle V) 1
      (aupdate (ovDraws [] (if b = true then [T₁] else [])) M₁.changed) R
      hR rfl rfl (coh_transfer rfl rfl hcoh)
      (fun v hv => hcW2 v ((alookup_isSome_iff _ _).mp hv))
  have h4' : maybeMarker g ({ P with
      sys := { P.sys with
        sets := P.sys.sets + (if b = true then [T₁] else []).length + 1,
        batch := some (1, aupdate
          (ovDraws [] (if b = true then [T₁] else [])) M₁.changed) },
      state := M, lastPosition := M.position,
      history := M :: rest, err := none } : Turtle V)
      = { P with
          sys := s₄,
          state := M, lastPosition := M.position,
          history := (if M.visible = true then
            [{ M with
               changed := (akeys (markerMap g M)).map (fun w => (w,
                 (alookup (aupdate (ovDraws [] (if b = true then [T₁] else []))
                   M₁.changed) w).getD (R w))),
               action := Action.turtle }] else [])
            ++ M :: rest,
          err := none } := h4
  have hndW1 : (akeys (ovDraws ([] : List (V × Block))
      (if b = true then [T₁] else []))).Nodup :=
    nodup_akeys_ovDraws _ [] List.nodup_nil
  have hndW2 : (akeys (aupdate
      (ovDraws [] (if b = true then [T₁] else [])) M₁.changed)).Nodup :=
    nodup_akeys_aupdate _ _ hndW1
  have hndW3 : (akeys (if M.visible = true then
      aupdate (aupdate (ovDraws [] (if b = true then [T₁] else []))
        M₁.changed) (markerMap g M)
      else aupdate (ovDraws [] (if b = true then [T₁] else []))
        M₁.changed)).Nodup := by
    by_cases hmv : M.visible = true
    · rw [if_pos hmv]
      exact nodup_akeys_aupdate _ _ hndW2
    · rw [if_neg hmv]
      exact hndW2
  have hcW3 : ∀ w ∈ akeys (if M.visible = true then
      aupdate (aupdate (ovDraws [] (if b = true then [T₁] else []))
        M₁.changed) (markerMap g M)
      else aupdate (ovDraws [] (if b = true then [T₁] else []))
        M₁.changed),
      (alookup s₄.cache w).isSome = true := by
    intro w hw
    by_cases hmv : M.visible = true
    · rw [if_pos hmv] at hw
      rcases mem_akeys_aupdate _ _ _ hw with h | h
      · exact h4mono w (hcW2 w h)
      · exact h4cov hmv w h
    · rw [if_neg hmv] at hw
      exact h4mono w (hcW2 w hw)
  have h4bat' : s₄.batch = some (1, if M.visible = true then
      aupdate (aupdate (ovDraws [] (if b = true then [T₁] else []))
        M₁.changed) (markerMap g M)
      else aupdate (ovDraws [] (if b = true then [T₁] else []))
        M₁.changed) := h4bat
  obtain ⟨f1, f2, f3, f4, f5, f6, f7, f8⟩ :=
    tExit_flush ({ P with
        sys := s₄,
        state := M, lastPosition := M.position,
        history := (if M.visible = true then
          [{ M with
             changed := (akeys (markerMap g M)).map (fun w => (w,
               (alookup (aupdate (ovDraws [] (if b = true then [T₁] else []))
                 M₁.changed) w).getD (R w))),
             action := Action.turtle }] else [])
          ++ M :: rest,
        err := none } : Turtle V)
      (if M.visible = true then
        aupdate (aupdate (ovDraws [] (if b = true then [T₁] else []))
          M₁.changed) (markerMap g M)
        else aupdate (ovDraws [] (if b = true then [T₁] else []))
          M₁.changed)
      R h4rem h4bat' rfl hndW3 h4coh
      (fun p hp => hcW3 p.1 (List.mem_map.mpr ⟨p, hp, rfl⟩))
  have hchain : undoStep g P = tExit ({ P with
      sys := s₄,
      state := M, lastPosition := M.position,
      history := (if M.visible = true then
        [{ M with
           changed := (akeys (markerMap g M)).map (fun w => (w,
             (alookup (aupdate (ovDraws [] (if b = true then [T₁] else []))
               M₁.changed) w).getD (R w))),
           action := Action.turtle }] else [])
        ++ M :: rest,
      err := none } : Turtle V) := by
    show tExit (maybeMarker g (undoPop (undrawTurtle (tEnter P)))) = _
    rw [h1, h2, h3, h4']
  rw [hchain]
  refine ⟨f1, f2, f4, ?_⟩
  intro v
  rw [f5 v, hW1]

/-- A fresh turtle over a coherent batchless screen system is at rest:
`turtleInit` leaves exactly the marker entry above the `home` sentinel,
the marker cells in the remote store, and no batch, error or stale
cache. -/
theorem turtleInit_ready (g : Geo V) (pos : V) (s₀ : Sys V Block)
    (hb : s₀.batch = none) (hcoh : Coh s₀) :
    Ready g (turtleInit g pos s₀) := by
  obtain ⟨s', heq, hrem, hbat, hcoh', hmono, hkeys⟩ :=
    commit_noBatch ({
        state := initTS g pos,
        lastPosition := pos,
        history := [initTS g pos],
        sys := s₀,
        err := none } : Turtle V)
      (markerMap g (initTS g pos)) .turtle hb rfl hcoh
      (markerMap_nodup g (initTS g pos))
  have hinit : turtleInit g pos s₀
      = { state := initTS g pos,
          lastPosition := pos,
          history := [{ initTS g pos with
            changed := (akeys (markerMap g (initTS g pos))).map
              (fun w => (w, s₀.remote w)),
            action := .turtle }, initTS g pos],
          sys := s', err := none } := by
    rw [show turtleInit g pos s₀
        = commit ({
            state := initTS g pos,
            lastPosition := pos,
            history := [initTS g pos],
            sys := s₀,
            err := none } : Turtle V)
          (markerMap g (initTS g pos)) .turtle from rfl, heq]
  rw [hinit]
  refine ⟨hbat, rfl, hcoh', rfl, ?_, ?_⟩
  · intro e hee
    rcases List.mem_cons.mp hee with rfl | hee'
    · constructor
      · show (akeys ((akeys (markerMap g (initTS g pos))).map
          (fun w => (w, s₀.remote w)))).Nodup
        rw [akeys_map_self]
        exact markerMap_nodup g _
      · intro w hw
        have hw' : w ∈ akeys ((akeys (markerMap g (initTS g pos))).map
            (fun u => (u, s₀.remote u))) := hw
        rw [akeys_map_self] at hw'
        exact hkeys w hw'
    · rcases List.mem_cons.mp hee' with rfl | hee''
      · refine ⟨List.nodup_nil, ?_⟩
        intro w hw
        simp [initTS, akeys] at hw
      · cases hee''
  · refine ⟨[{ initTS g pos with
        changed := (akeys (markerMap g (initTS g pos))).map
          (fun w => (w, s₀.remote w)),
        action := .turtle }],
      { initTS g pos with
        changed := (akeys (markerMap g (initTS g pos))).map
          (fun w => (w, s₀.remote w)),
        action := .turtle },
      initTS g pos, [], rfl, ?_, ?_, ?_, rfl, ?_⟩
    · exact fun h => Action.noConfusion h
    · exact ⟨rfl, rfl, rfl, rfl, rfl, rfl, rfl⟩
    · intro e hee
      rcases List.mem_cons.mp hee with rfl | hee'
      · rfl
      · cases hee'
    · intro _
      constructor
      · intro w
        show w ∈ akeys ((akeys (markerMap g (initTS g pos))).map
          (fun u => (u, s₀.remote u))) ↔ w ∈ akeys (markerMap g (initTS g pos))
        rw [akeys_map_self]
      · intro p hp
        show s'.remote p.1 = p.2
        rw [hrem p.1]
        show (alookup (markerMap g (initTS g pos)) p.1).getD (s₀.remote p.1) = p.2
        rw [alookup_of_mem_nodup (markerMap_nodup g _) hp]
        rfl

/-- The turtle after an operation replaces the snapshot and before
`_update` runs (the `self._state = self._state._replace(...)` step each
state-changing method performs). -/
def opTurtle (g : Geo V) (op : TOp V) (t : Turtle V) : Turtle V :=
  { t with state := opState g t op }

theorem ovw_base_eq {B : Type} (f : V → B) (m : List (V × B)) (v : V) (c : B)
    (hfv : f v = c) : ovw f m v = (alookup m v).getD c := by
  show (alookup m v).getD (f v) = (alookup m v).getD c
  rw [hfv]

/-- Claim C1: `undo` is a left inverse of every state-changing operation
for the visible external state.  From any at-rest turtle, performing any
of the operations (forward, backward, left, right, up, down, goto,
setheading, setelevation, penup, pendown, pen/fill block set, show/hide)
and then calling `undo` restores the position, heading, elevation, pen
and visibility flags and pen/fill blocks, restores the last committed
position, raises no error, and reverts every remote cell — the
operation's line and marker cells included — to its pre-operation
value. -/
theorem C1_undo_left_inverse (g : Geo V) (op : TOp V) (t : Turtle V)
    (hr : Ready g t) :
    eqvis (undoStep g (applyOp g op t)).state t.state
    ∧ (undoStep g (applyOp g op t)).lastPosition = t.lastPosition
    ∧ (undoStep g (applyOp g op t)).err = none
    ∧ (∀ v, (undoStep g (applyOp g op t)).sys.remote v = t.sys.remote v) := by
  obtain ⟨hb, he, hcoh, hlast, hhist, ts, T, M, rest, hh, hM, heqM, hts, htseq,
    hvisp⟩ := hr
  have hcts : ∀ e ∈ ts, ∀ w ∈ akeys e.changed,
      (alookup t.sys.cache w).isSome = true := by
    intro e hee w hw
    refine (hhist e ?_).2 w hw
    rw [hh]
    exact List.mem_append_left _ hee
  obtain ⟨s', hup, huprem, hupbat, hupcoh, hupmono, huplines, hupmark⟩ :=
    updateStep_ready g (opTurtle g op t) ts M rest hb he hcoh hh hM hts hcts
  have hP : applyOp g op t = updateStep g (opTurtle g op t) := rfl
  have hTmem : t.state.visible = true → T ∈ t.history := by
    intro hv
    rw [hh, htseq, if_pos hv]
    exact List.mem_append_left _ (List.mem_singleton.mpr rfl)
  have hvispack : t.state.visible = true →
      (akeys T.changed).Nodup ∧ (akeys (markerMap g t.state)).Nodup
      ∧ (∀ w, w ∈ akeys T.changed ↔ w ∈ akeys (markerMap g t.state))
      ∧ (∀ p ∈ markerMap g t.state, (opTurtle g op t).sys.remote p.1 = p.2) := by
    intro hv
    exact ⟨(hhist T (hTmem hv)).1, markerMap_nodup g t.state,
      (hvisp hv).1, (hvisp hv).2⟩
  have hOV1form : ovDraws ([] : List (V × Block)) ts
      = (if t.state.visible = true then aupdate [] T.changed else []) := by
    rw [htseq]
    by_cases hv : t.state.visible = true
    · rw [if_pos hv, if_pos hv]
      rfl
    · rw [if_neg hv, if_neg hv]
      rfl
  obtain ⟨hu1, hu2, hu3, hu4⟩ :=
    undoStep_spec g (applyOp g op t) ((opTurtle g op t).state.visible)
      ({ (opTurtle g op t).state with
          changed := (akeys (markerMap g (opTurtle g op t).state)).map
            (fun w => (w,
              (alookup (aupdate (ovDraws [] ts)
                (theLine g (opTurtle g op t))) w).getD
                ((opTurtle g op t).sys.remote w))),
          action := Action.turtle })
      ({ (opTurtle g op t).state with
          changed := (akeys (theLine g (opTurtle g op t))).map (fun w => (w,
            (alookup (ovDraws [] ts) w).getD
              ((opTurtle g op t).sys.remote w))),
          action := theTag (opTurtle g op t) })
      M rest s'.remote
      (by rw [hP, hup]; exact hupbat)
      (by rw [hP, hup])
      (by rw [hP, hup]; exact hupcoh)
      (by rw [hP, hup])
      (by rw [hP, hup])
      rfl
      (theTag_ne_turtle _)
      (theTag_ne_home _)
      (by
        intro hv w hw
        rw [hP, hup]
        exact hupmark hv w ((mem_akeys_map_self
          (akeys (markerMap g (opTurtle g op t).state))
          (fun u => (alookup (aupdate (ovDraws [] ts)
            (theLine g (opTurtle g op t))) u).getD
            ((opTurtle g op t).sys.remote u)) w).mp hw))
      (by
        intro w hw
        rw [hP, hup]
        exact huplines w ((mem_akeys_map_self
          (akeys (theLine g (opTurtle g op t)))
          (fun u => (alookup (ovDraws [] ts) u).getD
            ((opTurtle g op t).sys.remote u)) w).mp hw))
  refine ⟨?_, ?_, hu3, ?_⟩
  · rw [hu1]
    exact heqM
  · rw [hu2]
    exact heqM.1.trans hlast.symm
  · intro v
    rw [hu4 v, heqM.2.2.2.1, markerMap_eqvis g M t.state heqM,
      ovw_base_eq s'.remote _ v _ (huprem v)]
    exact overlay_roundtrip ((opTurtle g op t).sys.remote) T.changed
      (theLine g (opTurtle g op t)) (markerMap g (opTurtle g op t).state)
      (markerMap g t.state) t.state.visible ((opTurtle g op t).state.visible)
      _ _ _ _ _ _ _ _
      (theLine_nodup g (opTurtle g op t))
      (fun _ => markerMap_nodup g ((opTurtle g op t).state))
      hvispack hOV1form rfl rfl rfl rfl rfl rfl rfl v

/-- Witness for C1 at a concrete instance: a fresh turtle at the origin
over an all-air world is at rest, and `penup()` followed by `undo()`
restores the visible snapshot fields. -/
theorem C1_undo_left_inverse_witness :
    Ready geoZ (turtleInit geoZ (0, 0, 0) sysZ0)
    ∧ eqvis (undoStep geoZ (applyOp geoZ TOp.penup
        (turtleInit geoZ (0, 0, 0) sysZ0))).state
      (turtleInit geoZ (0, 0, 0) sysZ0).state := by
  have hready : Ready geoZ (turtleInit geoZ (0, 0, 0) sysZ0) :=
    turtleInit_ready geoZ (0, 0, 0) sysZ0 rfl (by
      intro v c hvc
      simp [sysZ0, alookup] at hvc)
  exact ⟨hready, (C1_undo_left_inverse geoZ TOp.penup _ hready).1⟩

/-- Claim C7: undo underflow is a defined no-op, not an error.  On a
well-formed turtle whose history above the `home` sentinel holds only
`turtle` entries (or nothing at all), `undo` raises no error and leaves
the current snapshot, the last committed position, and the number of
non-`turtle` history entries unchanged (when visible the marker is
merely redrawn, replacing the popped `turtle` entries). -/
theorem C7_undo_underflow (g : Geo V) (t : Turtle V) (ts : List (TState V))
    (e₀ : TState V)
    (hh : t.history = ts ++ [e₀]) (hts : ∀ e ∈ ts, e.action = .turtle)
    (h0 : e₀.action = .home)
    (hb : t.sys.batch = none) (he : t.err = none) (hcoh : Coh t.sys)
    (hhist : histOK t) :
    (undoStep g t).err = none
    ∧ (undoStep g t).state = t.state
    ∧ (undoStep g t).lastPosition = t.lastPosition
    ∧ (undoStep g t).history.countP (fun e => decide (e.action ≠ .turtle))
        = t.history.countP (fun e => decide (e.action ≠ .turtle)) := by
  have hOV1keys : ∀ w ∈ akeys (ovDraws [] ts),
      (alookup t.sys.cache w).isSome = true := by
    intro w hw
    rcases mem_akeys_ovDraws ts [] w hw with h | ⟨e, hee, hwe⟩
    · simp [akeys] at h
    · refine (hhist e ?_).2 w hwe
      rw [hh]
      exact List.mem_append_left _ hee
  have hOV1nd : (akeys (ovDraws ([] : List (V × Block)) ts)).Nodup :=
    nodup_akeys_ovDraws ts [] List.nodup_nil
  have h1 : tEnter t = { t with sys := { t.sys with batch := some (1, []) } } :=
    tEnter_none t hb
  have h2 : undrawTurtle ({ t with
      sys := { t.sys with batch := some (1, []) } } : Turtle V)
      = { t with
          sys := { t.sys with
            sets := t.sys.sets + ts.length,
            batch := some (1, ovDraws [] ts) },
          history := [e₀], err := none } :=
    undrawTurtle_spec _ ts [e₀] 1 []
      hts (Or.inr ⟨e₀, [], rfl, by simp [h0]⟩) hh rfl (by decide) he
  have h3 : undoPop ({ t with
      sys := { t.sys with
        sets := t.sys.sets + ts.length,
        batch := some (1, ovDraws [] ts) },
      history := [e₀], err := none } : Turtle V)
      = { t with
          sys := { t.sys with
            sets := t.sys.sets + ts.length,
            batch := some (1, ovDraws [] ts) },
          history := [e₀], err := none } :=
    undoPop_sentinel _ e₀ rfl h0
  obtain ⟨s₄, h4, h4rem, h4bat, h4coh, h4mono, h4cov⟩ :=
    maybeMarker_spec g ({ t with
        sys := { t.sys with
          sets := t.sys.sets + ts.length,
          batch := some (1, ovDraws [] ts) },
        history := [e₀], err := none } : Turtle V) 1
      (ovDraws [] ts) t.sys.remote rfl rfl rfl (coh_transfer rfl rfl hcoh)
      (fun v hv => hOV1keys v ((alookup_isSome_iff _ _).mp hv))
  have h4' : maybeMarker g ({ t with
      sys := { t.sys with
        sets := t.sys.sets + ts.length,
        batch := some (1, ovDraws [] ts) },
      history := [e₀], err := none } : Turtle V)
      = { t with
          sys := s₄,
          history := (if t.state.visible = true then
            [{ t.state with
               changed := (akeys (markerMap g t.state)).map (fun w => (w,
                 (alookup (ovDraws [] ts) w).getD (t.sys.remote w))),
               action := Action.turtle }] else [])
            ++ [e₀],
          err := none } := h4
  have hndW3 : (akeys (if t.state.visible = true then
      aupdate (ovDraws [] ts) (markerMap g t.state)
      else ovDraws [] ts)).Nodup := by
    by_cases hv : t.state.visible = true
    · rw [if_pos hv]
      exact nodup_akeys_aupdate _ _ hOV1nd
    · rw [if_neg hv]
      exact hOV1nd
  have hcW3 : ∀ w ∈ akeys (if t.state.visible = true then
      aupdate (ovDraws [] ts) (markerMap g t.state)
      else ovDraws [] ts),
      (alookup s₄.cache w).isSome = true := by
    intro w hw
    by_cases hv : t.state.visible = true
    · rw [if_pos hv] at hw
      rcases mem_akeys_aupdate _ _ _ hw with h | h
      · exact h4mono w (hOV1keys w h)
      · exact h4cov hv w h
    · rw [if_neg hv] at hw
      exact h4mono w (hOV1keys w hw)
  obtain ⟨f1, f2, f3, f4, f5, f6, f7, f8⟩ :=
    tExit_flush ({ t with
        sys := s₄,
        history := (if t.state.visible = true then
          [{ t.state with
             changed := (akeys (markerMap g t.state)).map (fun w => (w,
               (alookup (ovDraws [] ts) w).getD (t.sys.remote w))),
             action := Action.turtle }] else [])
          ++ [e₀],
        err := none } : Turtle V)
      (if t.state.visible = true then
        aupdate (ovDraws [] ts) (markerMap g t.state)
        else ovDraws [] ts)
      t.sys.remote h4rem h4bat rfl hndW3 h4coh
      (fun p hp => hcW3 p.1 (List.mem_map.mpr ⟨p, hp, rfl⟩))
  have hchain : undoStep g t = tExit ({ t with
      sys := s₄,
      history := (if t.state.visible = true then
        [{ t.state with
           changed := (akeys (markerMap g t.state)).map (fun w => (w,
             (alookup (ovDraws [] ts) w).getD (t.sys.remote w))),
           action := Action.turtle }] else [])
        ++ [e₀],
      err := none } : Turtle V) := by
    show tExit (maybeMarker g (undoPop (undrawTurtle (tEnter t)))) = _
    rw [h1, h2, h3, h4']
  have hcount0 : ∀ (l : List (TState V)), (∀ e ∈ l, e.action = .turtle) →
      l.countP (fun e => decide (e.action ≠ .turtle)) = 0 := by
    intro l hl
    rw [List.countP_eq_zero]
    intro e hel
    simp [hl e hel]
  rw [hchain]
  refine ⟨f4, f1, f2, ?_⟩
  have hf3 : (tExit ({ t with
      sys := s₄,
      history := (if t.state.visible = true then
        [{ t.state with
           changed := (akeys (markerMap g t.state)).map (fun w => (w,
             (alookup (ovDraws [] ts) w).getD (t.sys.remote w))),
           action := Action.turtle }] else [])
        ++ [e₀],
      err := none } : Turtle V)).history
      = (if t.state.visible = true then
        [{ t.state with
           changed := (akeys (markerMap g t.state)).map (fun w => (w,
             (alookup (ovDraws [] ts) w).getD (t.sys.remote w))),
           action := Action.turtle }] else [])
        ++ [e₀] := f3
  rw [hf3, hh, List.countP_append, List.countP_append, hcount0 ts hts,
    hcount0 _ ?_]
  intro e hee
  by_cases hv : t.state.visible = true
  · rw [if_pos hv] at hee
    rcases List.mem_singleton.mp hee with rfl
    rfl
  · rw [if_neg hv] at hee
    cases hee

/-- Witness for C7: a turtle whose history holds only the `home`
sentinel (the state `Turtle.__init__` builds just before drawing the
marker, over an all-air world); `undo` raises no error. -/
theorem C7_undo_underflow_witness :
    (({ state := initTS geoZ (0, 0, 0), lastPosition := (0, 0, 0),
        history := [initTS geoZ (0, 0, 0)], sys := sysZ0,
        err := none } : Turtle ZV)).history = [] ++ [initTS geoZ (0, 0, 0)]
    ∧ (undoStep geoZ ({
        state := initTS geoZ (0, 0, 0),
        lastPosition := (0, 0, 0),
        history := [initTS geoZ (0, 0, 0)], sys := sysZ0,
        err := none } : Turtle ZV)).err = none := by
  refine ⟨rfl, (C7_undo_underflow geoZ _ [] (initTS geoZ (0, 0, 0)) rfl
    ?_ rfl rfl rfl ?_ ?_).1⟩
  · intro e hee
    cases hee
  · intro v c hvc
    simp [sysZ0, alookup] at hvc
  · intro e hee
    rcases List.mem_singleton.mp hee with rfl
    refine ⟨List.nodup_nil, ?_⟩
    intro w hw
    simp [initTS, akeys] at hw

end UndoMachine

section GotoModel

/-- A Python value that can stand in a vector component after `goto`'s
argument preamble: a number, `None` (the unfilled `y`/`z` default), or
an unconsumed tuple of numbers (the swallowed-unpack case). -/
inductive Comp
  | num (n : Int)
  | pynone
  | tup (l : List Int)
deriving DecidableEq, Repr

/-- A `Vector` as `goto` may build one: three components of any shape
(the `Vector` named-tuple constructor accepts anything). -/
abbrev CV : Type := Comp × Comp × Comp

/-- Python's `TypeError` and `ValueError`. -/
inductive PyErr
  | typeError
  | valueError
deriving DecidableEq, Repr

/-- Lines 424–428 of `Turtle.goto` for a non-`Turtle` first argument:
`x, y, z = x` succeeds exactly on a 3-tuple; any other argument raises
`TypeError` or `ValueError`, which `except (TypeError, ValueError) as
exc: pass` swallows, and `other = Vector(x, y, z)` then packs the
arguments as they stand.  The parse itself therefore never raises. -/
def gotoParse (x y z : Comp) : CV :=
  match x with
  | .tup [a, b, c] => (.num a, .num b, .num c)
  | _ => (x, y, z)

/-- The numeric reading of a component. -/
def compNum : Comp → Option Int
  | .num n => some n
  | _ => none

/-- A `Vector` read back as whole-number coordinates, when all three
components are numbers. -/
def toZV (v : CV) : Option ZV :=
  match compNum v.1, compNum v.2.1, compNum v.2.2 with
  | some a, some b, some c => some (a, b, c)
  | _, _, _ => none

/-- Whole numbers embedded as vector components. -/
def ofZV (v : ZV) : CV := (.num v.1, .num v.2.1, .num v.2.2)

/-- Modelled from the spec: `line()` of `picraft.vector` (not under the
sources) iterates integer arithmetic on the endpoint components; Python
arithmetic between a number and `None` or a tuple raises `TypeError`,
and on whole-number endpoints the inclusive rasterized segment is
`zline`. -/
def lineCV (a b : CV) : Except PyErr (List CV) :=
  match toZV a, toZV b with
  | some u, some w => .ok ((zline u w).map ofZV)
  | _, _ => .error .typeError

/-- `Turtle._update` as `goto` invokes it (lines 231–248 after 429–430),
at statement granularity: inside the screen batch, undraw the marker
(cache writes), then build the pen-line cell map — rasterizing against
a malformed position raises `TypeError` there, and the batch exit sees
the exception and discards the overlay — else commit it, then redraw
the marker, whose position arithmetic raises likewise on a malformed
position, and finally record the position.  The raise-free paths are
the total model's (`commit`, `maybeMarker`, `setLastPos`, `tExit`). -/
def gotoUpdate (g : Geo CV) (t1 : Turtle CV) : Turtle CV × Option PyErr :=
  let t2 := undrawTurtle (tEnter t1)
  match (if t2.state.pendown ∧ t2.state.position ≠ t2.lastPosition then
      (lineCV t2.lastPosition t2.state.position).map
        (fun cells => (aupdate [] (cells.map (fun v => (v, t2.state.penblock))),
          Action.line))
    else .ok ([], Action.move)) with
  | .error e => ({ t2 with sys := (cacheExit true true t2.sys).1 }, some e)
  | .ok (m, a) =>
    let t3 := commit t2 m a
    if t3.state.visible ∧ (toZV t3.state.position).isNone then
      ({ t3 with sys := (cacheExit true true t3.sys).1 }, some .typeError)
    else (tExit (setLastPos (maybeMarker g t3)), none)

/-- `Turtle.goto` (lines 421–430) for a non-`Turtle` first argument:
parse the argument (swallowing unpack errors), replace the snapshot's
position with whatever came out, then `_update`. -/
def gotoCall (g : Geo CV) (t : Turtle CV) (x y z : Comp) :
    Turtle CV × Option PyErr :=
  gotoUpdate g { t with state := { t.state with position := gotoParse x y z } }

/-- Claim C9 (corrected): a malformed coordinate triple passed to `goto`
is not rejected at the API boundary — the unpack error is swallowed by
`except (TypeError, ValueError): pass` — and the call is not free of
cache interaction before failing: with the pen down it enters the
batch, performs the marker-undraw cache write, and only then raises
`TypeError` from the pen-line arithmetic inside the batch; the failed
outermost exit discards the overlay, so the remote store, the shared
cache and the flush trace are untouched. -/
theorem C9_goto_malformed (g : Geo CV) (t : Turtle CV) (x y z : Comp)
    (T M : TState CV) (rest : List (TState CV))
    (hh : t.history = T :: M :: rest) (hT : T.action = .turtle)
    (hM : M.action ≠ .turtle)
    (hb : t.sys.batch = none) (he : t.err = none)
    (hpd : t.state.pendown = true)
    (hbad : toZV (gotoParse x y z) = none)
    (hgood : (toZV t.lastPosition).isSome = true) :
    (gotoCall g t x y z).2 = some PyErr.typeError
    ∧ (gotoCall g t x y z).1.sys.sets = t.sys.sets + 1
    ∧ (gotoCall g t x y z).1.sys.remote = t.sys.remote
    ∧ (gotoCall g t x y z).1.sys.cache = t.sys.cache
    ∧ (gotoCall g t x y z).1.sys.flushes = t.sys.flushes
    ∧ (gotoCall g t x y z).1.sys.batch = none := by
  have hne : gotoParse x y z ≠ t.lastPosition := by
    intro hcontra
    rw [hcontra] at hbad
    rw [hbad] at hgood
    exact Bool.noConfusion hgood
  have h1 : tEnter ({ t with
      state := { t.state with position := gotoParse x y z } } : Turtle CV)
      = { t with
          state := { t.state with position := gotoParse x y z },
          sys := { t.sys with batch := some (1, []) } } :=
    tEnter_none _ hb
  have h2 : undrawTurtle ({ t with
      state := { t.state with position := gotoParse x y z },
      sys := { t.sys with batch := some (1, []) } } : Turtle CV)
      = { t with
          state := { t.state with position := gotoParse x y z },
          sys := { t.sys with
            sets := t.sys.sets + 1,
            batch := some (1, aupdate [] T.changed) },
          history := M :: rest, err := none } :=
    undrawTurtle_spec _ [T] (M :: rest) 1 []
      (by
        intro e hee
        rcases List.mem_singleton.mp hee with rfl
        exact hT)
      (Or.inr ⟨M, rest, rfl, hM⟩) hh rfl (by decide) he
  have hcond : ({ t with
      state := { t.state with position := gotoParse x y z },
      sys := { t.sys with
        sets := t.sys.sets + 1,
        batch := some (1, aupdate [] T.changed) },
      history := M :: rest, err := none } : Turtle CV).state.pendown = true
      ∧ ({ t with
      state := { t.state with position := gotoParse x y z },
      sys := { t.sys with
        sets := t.sys.sets + 1,
        batch := some (1, aupdate [] T.changed) },
      history := M :: rest, err := none } : Turtle CV).state.position
        ≠ ({ t with
      state := { t.state with position := gotoParse x y z },
      sys := { t.sys with
        sets := t.sys.sets + 1,
        batch := some (1, aupdate [] T.changed) },
      history := M :: rest, err := none } : Turtle CV).lastPosition :=
    ⟨hpd, hne⟩
  have hline : lineCV ({ t with
      state := { t.state with position := gotoParse x y z },
      sys := { t.sys with
        sets := t.sys.sets + 1,
        batch := some (1, aupdate [] T.changed) },
      history := M :: rest, err := none } : Turtle CV).lastPosition
      ({ t with
      state := { t.state with position := gotoParse x y z },
      sys := { t.sys with
        sets := t.sys.sets + 1,
        batch := some (1, aupdate [] T.changed) },
      history := M :: rest, err := none } : Turtle CV).state.position
      = Except.error PyErr.typeError := by
    show lineCV t.lastPosition (gotoParse x y z) = Except.error PyErr.typeError
    cases hta : toZV t.lastPosition <;> simp [lineCV, hta, hbad]
  have hres : gotoCall g t x y z
      = ({ t with
          state := { t.state with position := gotoParse x y z },
          sys := { t.sys with sets := t.sys.sets + 1, batch := none },
          history := M :: rest, err := none },
         some PyErr.typeError) := by
    show (match (if (undrawTurtle (tEnter ({ t with
        state := { t.state with position := gotoParse x y z } } : Turtle CV))).state.pendown
        ∧ (undrawTurtle (tEnter ({ t with
        state := { t.state with position := gotoParse x y z } } : Turtle CV))).state.position
        ≠ (undrawTurtle (tEnter ({ t with
        state := { t.state with position := gotoParse x y z } } : Turtle CV))).lastPosition
        then
          (lineCV (undrawTurtle (tEnter ({ t with
            state := { t.state with position := gotoParse x y z } } : Turtle CV))).lastPosition
            (undrawTurtle (tEnter ({ t with
            state := { t.state with position := gotoParse x y z } } : Turtle CV))).state.position).map
            (fun cells => (aupdate [] (cells.map (fun v => (v,
              (undrawTurtle (tEnter ({ t with
              state := { t.state with position := gotoParse x y z } } : Turtle CV))).state.penblock))),
              Action.line))
        else .ok ([], Action.move)) with
      | .error e => ({ undrawTurtle (tEnter ({ t with
          state := { t.state with position := gotoParse x y z } } : Turtle CV)) with
          sys := (cacheExit true true (undrawTurtle (tEnter ({ t with
            state := { t.state with position := gotoParse x y z } } : Turtle CV))).sys).1 },
          some e)
      | .ok (m, a) =>
        let t3 := commit (undrawTurtle (tEnter ({ t with
          state := { t.state with position := gotoParse x y z } } : Turtle CV))) m a
        if t3.state.visible ∧ (toZV t3.state.position).isNone then
          ({ t3 with sys := (cacheExit true true t3.sys).1 }, some .typeError)
        else (tExit (setLastPos (maybeMarker g t3)), none)) = _
    rw [h1, h2, if_pos hcond, hline]
    rfl
  rw [hres]
  exact ⟨rfl, rfl, rfl, rfl, rfl, rfl⟩

/-- Modelled from the spec: a total geometry over goto's component
domain, enough for the concrete counterexample (whose failing path
never rasterizes a line or rotates anything). -/
def geoCV0 : Geo CV :=
  { o := ofZV (0, 0, 0), x := ofZV (1, 0, 0), y := ofZV (0, 1, 0),
    z := ofZV (0, 0, 1),
    add := fun a _ => a, sub := fun a _ => a, smul := fun _ v => v,
    cross := fun a _ => a, unit := fun v => v, rnd := fun v => v,
    rotate := fun v _ _ => v, line := fun _ _ => [] }

/-- An all-air world over goto's component domain, with an empty shared
cache and no open batch. -/
def sysCV0 : Sys CV Block :=
  { remote := fun _ => airBlock
    cache := []
    batch := none
    flushes := []
    fetches := []
    sets := 0 }

/-- Counterexample to C9 as frozen, at a concrete input: `goto` with the
malformed pair `(1, 2)` raises nothing at the parse boundary (the
unpack error is swallowed and the malformed `Vector` survives into the
snapshot), performs a cache write — the marker undraw, counted by
`sets` — inside the batch, and only then fails, with `TypeError` from
arithmetic rather than an input-validation error. -/
theorem C9_counterexample :
    gotoParse (.tup [1, 2]) .pynone .pynone
      = (Comp.tup [1, 2], Comp.pynone, Comp.pynone)
    ∧ (gotoCall geoCV0 (turtleInit geoCV0 (ofZV (0, 0, 0)) sysCV0)
        (.tup [1, 2]) .pynone .pynone).2 = some PyErr.typeError
    ∧ (gotoCall geoCV0 (turtleInit geoCV0 (ofZV (0, 0, 0)) sysCV0)
        (.tup [1, 2]) .pynone .pynone).1.sys.sets
      = (turtleInit geoCV0 (ofZV (0, 0, 0)) sysCV0).sys.sets + 1 := by
  refine ⟨rfl, ?_, ?_⟩ <;> decide

/-- Witness for the corrected C9 at a concrete input: the fresh turtle's
history shape, and the `TypeError` (not a boundary validation error)
that `goto` with the malformed pair `(1, 2)` raises after its cache
write. -/
theorem C9_goto_malformed_witness :
    (turtleInit geoCV0 (ofZV (0, 0, 0)) sysCV0).history
      = { initTS geoCV0 (ofZV (0, 0, 0)) with
          changed := (akeys (markerMap geoCV0
            (initTS geoCV0 (ofZV (0, 0, 0))))).map
            (fun w => (w, sysCV0.remote w)),
          action := Action.turtle }
        :: initTS geoCV0 (ofZV (0, 0, 0)) :: []
    ∧ (gotoCall geoCV0 (turtleInit geoCV0 (ofZV (0, 0, 0)) sysCV0)
        (.tup [1, 2]) .pynone .pynone).2 = some PyErr.typeError := by
  refine ⟨by decide, (C9_goto_malformed geoCV0
    (turtleInit geoCV0 (ofZV (0, 0, 0)) sysCV0) (.tup [1, 2]) .pynone .pynone
    ({ initTS geoCV0 (ofZV (0, 0, 0)) with
        changed := (akeys (markerMap geoCV0
          (initTS geoCV0 (ofZV (0, 0, 0))))).map
          (fun w => (w, sysCV0.remote w)),
        action := Action.turtle })
    (initTS geoCV0 (ofZV (0, 0, 0))) []
    (by decide) (by decide) (by decide) (by decide) (by decide)
    (by decide) (by decide) (by decide)).1⟩

end GotoModel

end Picraft
